import Mathlib

/-!
# Verification of the coding-agent repository sandbox / tools core

A shallow embedding of the repository's file-tree core:

* `src/agent/security.ts` — `isDeniedPath`, `resolveInRepo`, `listFilesRecursive`
* `src/agent/tools.ts` (the full variant shipped as `unnamed/part_002`) —
  the `RepoTools` operations: `read_file`, `read_files_batch`, `write_file`,
  `delete_file`, `stat_files_batch`, `search_in_files`, baseline operations,
  `diff_file_against_original`, `diff_file_against_current`, `apply_patch`,
  and the line diff (`diffLines` / `buildUnifiedDiff`).

The filesystem is modelled as a tree of nodes (regular files with string
contents, directories with named children, and symbolic links carrying their
raw target string).  Node's path / fs primitives (`path.resolve`,
`fs.realpathSync`, `fs.lstatSync`, …) are modelled on lists of path segments;
symlink resolution uses a step-count fuel, modelling the resolution-depth
limit (`ELOOP`) of the underlying libc `realpath`.

JavaScript string primitives used by the source (`split(/\r?\n/)`,
`indexOf`, `replace`, `trim`, `toLowerCase`, `Buffer.byteLength(_, "utf8")`)
are given as executable character-list functions below.
-/

namespace CodingAgent

/-! ## JavaScript string primitives, on `List Char` -/

/-- Whitespace for `String.prototype.trim` (the ASCII subset; the source only
trims user-supplied paths and patch header fields). -/
def jsWhite (c : Char) : Bool :=
  c = ' ' ∨ c = '\t' ∨ c = '\n' ∨ c = '\r' ∨ c = '\x0b' ∨ c = '\x0c'

def dropRightWhile (p : Char → Bool) (l : List Char) : List Char :=
  (l.reverse.dropWhile p).reverse

/-- `s.trim()` -/
def trimCh (l : List Char) : List Char :=
  dropRightWhile jsWhite (l.dropWhile jsWhite)

def trimS (s : String) : String := String.mk (trimCh s.data)

/-- `s.toLowerCase()` (ASCII; deny-list names are ASCII). -/
def lowerS (s : String) : String := String.mk (s.data.map Char.toLower)

/-- `s.split(sep)` for a one-character separator. -/
def splitChOn (sep : Char) : List Char → List (List Char)
  | [] => [[]]
  | c :: rest =>
    let r := splitChOn sep rest
    if c = sep then [] :: r
    else
      match r with
      | [] => [[c]]
      | h :: t => (c :: h) :: t

def splitS (sep : Char) (s : String) : List String :=
  (splitChOn sep s.data).map String.mk

/-- `s.split(/\r?\n/)` — a line break is `"\r\n"` or `"\n"`; a lone `"\r"`
is ordinary content. -/
def splitLinesCh : List Char → List (List Char)
  | [] => [[]]
  | '\r' :: '\n' :: rest => [] :: splitLinesCh rest
  | '\n' :: rest => [] :: splitLinesCh rest
  | c :: rest =>
    match splitLinesCh rest with
    | [] => [[c]]
    | h :: t => (c :: h) :: t

def splitLines (s : String) : List String :=
  (splitLinesCh s.data).map String.mk

/-- `arr.join(sep)` for a one-character separator. -/
def joinCh (sep : Char) : List (List Char) → List Char
  | [] => []
  | [l] => l
  | l :: rest => l ++ sep :: joinCh sep rest

def joinS (sep : Char) (parts : List String) : String :=
  String.mk (joinCh sep (parts.map String.data))

/-- `a.startsWith(b)` -/
def startsWithS (s pre : String) : Bool := pre.data.isPrefixOf s.data

/-- `s.slice(n)` (drop the first `n` UTF-16 units; the source only slices
past ASCII prefixes such as `"--- a/"`). -/
def dropS (n : Nat) (s : String) : String := String.mk (s.data.drop n)

/-- `s.slice(0, n)` -/
def takeS (n : Nat) (s : String) : String := String.mk (s.data.take n)

/-- `hay.indexOf(needle)` (first index at which `needle` occurs, as a
substring of `hay`). -/
def idxOf (needle : List Char) : List Char → Option Nat
  | [] => if needle.isPrefixOf [] then some 0 else none
  | h :: t =>
    if needle.isPrefixOf (h :: t) then some 0
    else (idxOf needle t).map (· + 1)

/-- The occurrence-counting loop of `applyPatch` (contextual mode):
repeatedly `indexOf` from just past the previous hit, so occurrences are
counted non-overlapping, scanning left to right.  Fuel bounds the loop
(call with `hay.length + 1`, enough for any non-empty needle). -/
def countOccGo (needle : List Char) : Nat → List Char → Nat
  | 0, _ => 0
  | fuel + 1, hay =>
    match idxOf needle hay with
    | none => 0
    | some i => 1 + countOccGo needle fuel (hay.drop (i + needle.length))

def countOcc (hay needle : List Char) : Nat :=
  countOccGo needle (hay.length + 1) hay

/-- Spec-side definition, for comparison with the source's counting loop:
the number of positions at which `needle` occurs as a substring of `hay`
(counting overlapping occurrences). -/
def substringOccurrenceCount (hay needle : String) : Nat :=
  (List.range (hay.data.length + 1)).countP
    (fun k => needle.data.isPrefixOf (hay.data.drop k))

/-- `$`-substitution in the replacement string of JavaScript
`String.prototype.replace` with a string pattern: `$$`, `$&` (the match),
`` $` `` (the part before), `$'` (the part after); anything else literal. -/
def dollarSubst (matched pre post : List Char) : List Char → List Char
  | [] => []
  | [c] => [c]
  | c :: d :: rest =>
    if c = '$' then
      if d = '$' then '$' :: dollarSubst matched pre post rest
      else if d = '&' then matched ++ dollarSubst matched pre post rest
      else if d = '`' then pre ++ dollarSubst matched pre post rest
      else if d = '\'' then post ++ dollarSubst matched pre post rest
      else '$' :: dollarSubst matched pre post (d :: rest)
    else c :: dollarSubst matched pre post (d :: rest)

/-- `hay.replace(needle, repl)` with string arguments: replace the first
occurrence, processing `$` patterns in `repl`. -/
def replaceFirstJS (hay needle repl : List Char) : List Char :=
  match idxOf needle hay with
  | none => hay
  | some i =>
    hay.take i ++ dollarSubst needle (hay.take i) (hay.drop (i + needle.length)) repl
      ++ hay.drop (i + needle.length)

/-- `patch.replace(/\r\n/g, "\n")` -/
def normalizeCRLF : List Char → List Char
  | [] => []
  | '\r' :: '\n' :: rest => '\n' :: normalizeCRLF rest
  | c :: rest => c :: normalizeCRLF rest

/-- `hay.includes(needle)` -/
def includesS (hay needle : String) : Bool :=
  (idxOf needle.data hay.data).isSome

/-- UTF-8 size of one scalar value (`Buffer.byteLength` counts these). -/
def charUtf8Size (c : Char) : Nat :=
  if c.val < 0x80 then 1
  else if c.val < 0x800 then 2
  else if c.val < 0x10000 then 3
  else 4

def utf8LenCh : List Char → Nat
  | [] => 0
  | c :: rest => charUtf8Size c + utf8LenCh rest

/-- `Buffer.byteLength(s, "utf8")` -/
def utf8Len (s : String) : Nat := utf8LenCh s.data

/-! ## Filesystem model

A tree of nodes rooted at `/`.  Directory children are an association list
in directory order (mutual inductive, so that the tree walkers are
structurally recursive and kernel-reducible). -/

mutual
inductive Node where
  | file : String → Node
  | link : String → Node
  | dir : Entries → Node
  deriving DecidableEq
inductive Entries where
  | nil : Entries
  | cons : String → Node → Entries → Entries
  deriving DecidableEq
end

/-- Directory lookup by entry name (first hit, like the real filesystem). -/
def lookupE (name : String) : Entries → Option Node
  | .nil => none
  | .cons n node rest => if n = name then some node else lookupE name rest

/-- Plain descent along path segments: no symlink is followed at any
component (an intermediate symlink or file stops the descent).  This is the
"physical" view used by `lstat` on canonical paths. -/
def getNode (fs : Node) : List String → Option Node
  | [] => some fs
  | seg :: rest =>
    match fs with
    | .dir es =>
      match lookupE seg es with
      | some child => getNode child rest
      | none => none
    | _ => none

def isAbsTarget (t : String) : Bool :=
  match t.data with
  | '/' :: _ => true
  | _ => false

/-- Split a path string on `/` into segments (empty segments are later
dropped by normalisation). -/
def splitPath (s : String) : List String := splitS '/' s

/-- `fs.realpathSync`, component by component: `pre` is the canonical,
symlink-free prefix resolved so far, `rest` the components still to
process.  A symlink expands its target in front of `rest`; `fuel` bounds
the total number of steps (modelling the libc resolution-depth limit). -/
def follow (fs : Node) : Nat → List String → List String → Option (List String)
  | 0, _, _ => none
  | _ + 1, pre, [] => some pre
  | fuel + 1, pre, c :: rest =>
    if c = "" ∨ c = "." then follow fs fuel pre rest
    else if c = ".." then follow fs fuel pre.dropLast rest
    else
      match getNode fs (pre ++ [c]) with
      | none => none
      | some (.file _) => if rest.isEmpty then some (pre ++ [c]) else none
      | some (.dir _) => follow fs fuel (pre ++ [c]) rest
      | some (.link t) =>
        if isAbsTarget t then follow fs fuel [] (splitPath t ++ rest)
        else follow fs fuel pre (splitPath t ++ rest)

/-- `fs.realpathSync(p)` for an absolute segment path `p`. -/
def realpathF (fs : Node) (segs : List String) : Option (List String) :=
  follow fs (segs.length + 64) [] segs

/-- `fs.existsSync` (follows symlinks; `false` on any resolution error). -/
def existsF (fs : Node) (segs : List String) : Bool :=
  (realpathF fs segs).isSome

/-- `fs.statSync` (follows symlinks; `none` models a thrown `ENOENT`). -/
def statNode (fs : Node) (segs : List String) : Option Node :=
  match realpathF fs segs with
  | some r => getNode fs r
  | none => none

/-- `st.size` for a stat'ed node (regular file: UTF-8 byte length of its
content; directories are given size 0 — the source only uses `st.size`
of regular files). -/
def nodeSize : Node → Nat
  | .file c => utf8Len c
  | _ => 0

/-- `fs.readFileSync(p, "utf8")` -/
def readF (fs : Node) (segs : List String) : Option String :=
  match statNode fs segs with
  | some (.file c) => some c
  | _ => none

/-- Replace or add the binding of `name`. -/
def setE (name : String) (node : Node) : Entries → Entries
  | .nil => .cons name node .nil
  | .cons n x rest =>
    if n = name then .cons n node rest else .cons n x (setE name node rest)

def removeE (name : String) : Entries → Entries
  | .nil => .nil
  | .cons n x rest => if n = name then rest else .cons n x (removeE name rest)

/-- `ensureParentDirExists` + `fs.writeFileSync(p, content)` on a segment
path: create missing intermediate directories, then set the leaf to a
regular file.  An intermediate regular file stops the write (the real call
would throw `ENOTDIR`; the source only writes below parents established by
`resolveInRepo`). -/
def setFile (fs : Node) : List String → String → Node
  | [], _ => fs
  | [name], content =>
    match fs with
    | .dir es =>
      match lookupE name es with
      | some (.dir _) => fs
      | _ => .dir (setE name (.file content) es)
    | _ => fs
  | name :: seg :: rest, content =>
    match fs with
    | .dir es =>
      match lookupE name es with
      | some child => .dir (setE name (setFile child (seg :: rest) content) es)
      | none => .dir (setE name (setFile (.dir .nil) (seg :: rest) content) es)
    | _ => fs

/-- `fs.unlinkSync` (removes the leaf entry). -/
def removeFile (fs : Node) : List String → Node
  | [] => fs
  | [name] =>
    match fs with
    | .dir es => .dir (removeE name es)
    | _ => fs
  | name :: seg :: rest =>
    match fs with
    | .dir es =>
      match lookupE name es with
      | some child => .dir (setE name (removeFile child (seg :: rest)) es)
      | none => fs
    | _ => fs

/-- A legal entry name: what `readdir` can actually report. -/
def wfName (n : String) : Bool :=
  n ≠ "" ∧ n ≠ "." ∧ n ≠ ".." ∧ ¬ n.data.contains '/' ∧
    ¬ n.data.contains '\x00' ∧ trimCh n.data = n.data

def namesOfE : Entries → List String
  | .nil => []
  | .cons n _ rest => n :: namesOfE rest

mutual
/-- Well-formed tree: every directory has duplicate-free, legal names. -/
def Node.wf : Node → Bool
  | .file _ => true
  | .link _ => true
  | .dir es => (namesOfE es).Nodup ∧ Entries.wf es
def Entries.wf : Entries → Bool
  | .nil => true
  | .cons n node rest => wfName n ∧ Node.wf node ∧ Entries.wf rest
end

/-! ## Path sandbox (`security.ts`) -/

structure SandboxOptions where
  repoRoot : String
  denyDirs : List String
  denyFilesExact : List String
  denyExtensions : List String
  maxReadBytes : Nat
  maxWriteBytes : Nat
  deriving DecidableEq

/-- Lexical normalisation of an absolute segment list (what `path.resolve`
does after joining): drop empty and `"."` segments, a `".."` pops the
previous segment (clamping at the root). -/
def normAbsGo (acc : List String) : List String → List String
  | [] => acc
  | s :: rest =>
    if s = "" ∨ s = "." then normAbsGo acc rest
    else if s = ".." then normAbsGo acc.dropLast rest
    else normAbsGo (acc ++ [s]) rest

def normAbs (l : List String) : List String := normAbsGo [] l

/-- `path.posix.basename` of a slash-free-normalised relative path. -/
def posixBasename (p : String) : String :=
  (splitS '/' p).getLastD ""

/-- `path.posix.extname`: from the last `.` of the basename; empty for a
leading-dot-only name such as `".env"`. -/
def posixExtname (b : String) : String :=
  match (List.range b.data.length).filter (fun i => b.data.getD i ' ' = '.') with
  | [] => ""
  | idxs =>
    let i := idxs.getLastD 0
    if i = 0 then "" else String.mk (b.data.drop i)

/-- `isDeniedPath(opts, relPosixPath)` (`security.ts`): case-insensitive
match of exact file names, extensions, and directory names at any depth. -/
def isDeniedPath (opts : SandboxOptions) (relPosixPath : String) : Bool :=
  let pRaw := String.mk (relPosixPath.data.dropWhile (· = '/'))
  let p := lowerS pRaw
  let denyFiles := opts.denyFilesExact.map lowerS
  let denyExts := opts.denyExtensions.map lowerS
  let denyDirs := opts.denyDirs.map lowerS
  let base := posixBasename p
  if denyFiles.contains base then true
  else
    let ext := posixExtname base
    if ext ≠ "" ∧ denyExts.contains ext then true
    else (splitS '/' p).any (fun seg => denyDirs.contains seg)

/-- The result type of `resolveInRepo`; the absolute path is kept as
canonical segments. -/
structure SafePath where
  absSegs : List String
  relPath : String
  deriving DecidableEq

/-- Error taxonomy of `resolveInRepo` (`throw new Error(message)` sites,
keyed by message). -/
inductive SecError where
  /-- `Invalid path: ...` (empty / whitespace path, null byte, unresolvable
  parent, root itself, existing directory target). -/
  | invalidPath : SecError
  /-- `Path traversal blocked: ...` -/
  | pathTraversal : SecError
  /-- `Access denied by policy: ...` -/
  | accessDenied : SecError
  /-- `fs.realpathSync(path.resolve(opts.repoRoot))` threw (repo root does
  not resolve); the raw error propagates out of `resolveInRepo`. -/
  | rootError : SecError
  deriving DecidableEq

/-- `fs.realpathSync(path.resolve(opts.repoRoot))`. -/
def rootReal (fs : Node) (opts : SandboxOptions) : Option (List String) :=
  realpathF fs (normAbs (splitPath opts.repoRoot))

/-- `path.resolve(realRepoAbs, userPathTrimmed)`. -/
def candidateSegs (realRepo : List String) (trimmed : String) : List String :=
  if isAbsTarget trimmed then normAbs (splitPath trimmed)
  else normAbs (realRepo ++ splitPath trimmed)

/-- The `realpathSync(candidate)` with the missing-target fallback
(`realpathSync(dirname) + basename`); `none` models the final
`Invalid path` throw. -/
def realCand (fs : Node) (cand : List String) : Option (List String) :=
  match realpathF fs cand with
  | some r => some r
  | none =>
    match cand.getLast? with
    | none => none
    | some base =>
      match realpathF fs cand.dropLast with
      | some rp => some (rp ++ [base])
      | none => none

/-- `realCandidateAbs.startsWith(realRepoAbs + path.sep)` on segment lists
(for `realRepoAbs = "/"`, i.e. `[]`, the string check compares against
`"//"` and always fails, hence the `root ≠ []` conjunct). -/
def strictUnder (root segs : List String) : Bool :=
  root ≠ [] ∧ root.isPrefixOf segs ∧ root.length < segs.length

/-- `path.relative(from, to)` on segment lists. -/
def relSegsOf (f t : List String) : List String :=
  let k := (List.range (min f.length t.length)).takeWhile
    (fun i => f.getD i "" = t.getD i "")
  let common := k.length
  List.replicate (f.length - common) ".." ++ t.drop common

/-- The `try { if existsSync ... lstatSync ... } catch` directory-rejection
block of `resolveInRepo`: a directory target (and any failure inside the
block) is an `Invalid path`. -/
def dirCheck (fs : Node) (realCandidate : List String) : Except SecError Unit :=
  if existsF fs realCandidate then
    match getNode fs realCandidate with
    | some (.dir _) => .error .invalidPath
    | some _ => .ok ()
    | none => .error .invalidPath
  else .ok ()

/-- `resolveInRepo(opts, userPath)` (`security.ts`).  `trimmed` and
`relPosix` of the source are written out in full at each use site. -/
def resolveInRepo (opts : SandboxOptions) (fs : Node) (userPath : String) :
    Except SecError SafePath :=
  if userPath.data.contains '\x00' then .error .invalidPath
  else if trimS userPath = "" then .error .invalidPath
  else
    match rootReal fs opts with
    | none => .error .rootError
    | some realRepo =>
      match realCand fs (candidateSegs realRepo (trimS userPath)) with
      | none => .error .invalidPath
      | some realCandidate =>
        if ¬ strictUnder realRepo realCandidate then .error .pathTraversal
        else if trimS (joinS '/' (relSegsOf realRepo realCandidate)) = "" then
          .error .invalidPath
        else
          match dirCheck fs realCandidate with
          | .error e => .error e
          | .ok _ =>
            if isDeniedPath opts (joinS '/' (relSegsOf realRepo realCandidate)) then
              .error .accessDenied
            else .ok { absSegs := realCandidate,
                       relPath := joinS '/' (relSegsOf realRepo realCandidate) }

/-! ## Tree lister (`listFilesRecursive`, `security.ts`) -/

/-- String comparison used by JavaScript `Array.prototype.sort()` on the
relative paths (lexicographic; code-point order — identical to UTF-16
order for the Basic Multilingual Plane names handled here). -/
def strLt (a b : String) : Bool := a.data < b.data

def insertSorted (x : String) : List String → List String
  | [] => [x]
  | y :: rest => if strLt x y then x :: y :: rest else y :: insertSorted x rest

def sortStrings : List String → List String
  | [] => []
  | x :: rest => insertSorted x (sortStrings rest)

/-- `fs.readdirSync(dirAbs, { withFileTypes: true })` as name/node pairs
(the path's symlink prefix is followed by the syscall). -/
def entriesList : Entries → List (String × Node)
  | .nil => []
  | .cons n node rest => (n, node) :: entriesList rest

def readDir (fs : Node) (segs : List String) : Option (List (String × Node)) :=
  match statNode fs segs with
  | some (.dir es) => some (entriesList es)
  | _ => none

/-- The recursive `walk` of `listFilesRecursive`: `relDir` are the segments
of the current directory relative to `repoAbs` (so the spelled absolute
path is `repoAbs ++ relDir`); children are carried as nodes, which agrees
with re-reading the immutable tree.  Stops once `maxFiles` paths are
accumulated; skips denied paths and symlinks; re-canonicalises a
subdirectory and checks containment under `repoReal` before descending. -/
def walkEntries (fs : Node) (opts : SandboxOptions) (repoAbs repoReal : List String)
    (maxFiles : Nat) : Nat → List (String × Node) → List String → List String → List String
  | 0, _, _, acc => acc
  | _ + 1, [], _, acc => acc
  | fuel + 1, (name, child) :: rest, relDir, acc =>
    if maxFiles ≤ acc.length then acc
    else if joinS '/' (relDir ++ [name]) = "" ∨
        isDeniedPath opts (joinS '/' (relDir ++ [name])) then
      walkEntries fs opts repoAbs repoReal maxFiles fuel rest relDir acc
    else
      match child with
      | .link _ => walkEntries fs opts repoAbs repoReal maxFiles fuel rest relDir acc
      | .file _ =>
        walkEntries fs opts repoAbs repoReal maxFiles fuel rest relDir
          (acc ++ [joinS '/' (relDir ++ [name])])
      | .dir children =>
        match realpathF fs (repoAbs ++ (relDir ++ [name])) with
        | none => walkEntries fs opts repoAbs repoReal maxFiles fuel rest relDir acc
        | some childReal =>
          if strictUnder repoReal childReal then
            walkEntries fs opts repoAbs repoReal maxFiles fuel rest relDir
              (walkEntries fs opts repoAbs repoReal maxFiles fuel
                (entriesList children) (relDir ++ [name]) acc)
          else walkEntries fs opts repoAbs repoReal maxFiles fuel rest relDir acc

mutual
/-- Total number of nodes, for the walk fuel. -/
def Node.size : Node → Nat
  | .file _ => 1
  | .link _ => 1
  | .dir es => 1 + Entries.size es
def Entries.size : Entries → Nat
  | .nil => 0
  | .cons _ node rest => 1 + Node.size node + Entries.size rest
end

/-- `listFilesRecursive(opts, maxFiles = 5000)` (`security.ts`). -/
def listFilesRecursive (fs : Node) (opts : SandboxOptions) (maxFiles : Nat := 5000) :
    List String :=
  let repoAbs := normAbs (splitPath opts.repoRoot)
  let repoReal := (realpathF fs repoAbs).getD repoAbs
  match readDir fs repoAbs with
  | none => []
  | some entries =>
    sortStrings (walkEntries fs opts repoAbs repoReal maxFiles
      (2 * Node.size fs + 2) entries [] [])

/-! ## Diff engine (`tools.ts`: `diffLines`, `pushOp`, `buildUnifiedDiff`) -/

inductive DiffType where
  | equal | add | remove
  deriving DecidableEq

structure DiffOp where
  type : DiffType
  lines : List String
  deriving DecidableEq

/-- The dynamic-programming table of `diffLines`: `dp[i][j]` is exactly the
LCS length of the suffixes `a[i..]`, `b[j..]` (fuel: one unit per advanced
cursor, so `a.length + b.length` always suffices). -/
def lcsLenF : Nat → List String → List String → Nat
  | 0, _, _ => 0
  | _ + 1, [], _ => 0
  | _ + 1, _ :: _, [] => 0
  | fuel + 1, a :: as', b :: bs' =>
    if a = b then lcsLenF fuel as' bs' + 1
    else max (lcsLenF fuel as' (b :: bs')) (lcsLenF fuel (a :: as') bs')

def lcsLen (a b : List String) : Nat := lcsLenF (a.length + b.length) a b

/-- The backtracking walk of `diffLines`, emitting one tagged line per step
(the `dp[i+1][j] >= dp[i][j+1]` comparison picks `remove` over `add`). -/
def diffAtomsF : Nat → List String → List String → List (DiffType × String)
  | 0, _, _ => []
  | _ + 1, [], [] => []
  | fuel + 1, a :: as', [] => (.remove, a) :: diffAtomsF fuel as' []
  | fuel + 1, [], b :: bs' => (.add, b) :: diffAtomsF fuel [] bs'
  | fuel + 1, a :: as', b :: bs' =>
    if a = b then (.equal, a) :: diffAtomsF fuel as' bs'
    else if lcsLen (a :: as') bs' ≤ lcsLen as' (b :: bs') then
      (.remove, a) :: diffAtomsF fuel as' (b :: bs')
    else (.add, b) :: diffAtomsF fuel (a :: as') bs'

def diffAtoms (a b : List String) : List (DiffType × String) :=
  diffAtomsF (a.length + b.length) a b

/-- `pushOp`: adjacent same-type lines are coalesced into one run. -/
def coalesce : List (DiffType × String) → List DiffOp
  | [] => []
  | (t, l) :: rest =>
    match coalesce rest with
    | [] => [⟨t, [l]⟩]
    | op :: ops =>
      if op.type = t then ⟨t, l :: op.lines⟩ :: ops
      else ⟨t, [l]⟩ :: op :: ops

/-- `diffLines(a, b)` (`tools.ts`). -/
def diffLines (a b : List String) : List DiffOp :=
  coalesce (diffAtoms a b)

def countType (t : DiffType) (ops : List DiffOp) : Nat :=
  (ops.filter (fun op => op.type = t)).foldl (fun n op => n + op.lines.length) 0

def prefixFor : DiffType → String
  | .equal => " "
  | .add => "+"
  | .remove => "-"

/-- `buildUnifiedDiff(relPath, a, b, maxLines, precomputedOps?)`: two header
lines plus the prefixed op lines, truncated at `maxLines` body lines. -/
def buildUnifiedDiffOps (relPath : String) (ops : List DiffOp) (maxLines : Nat) : String :=
  let body := (ops.flatMap (fun op => op.lines.map (fun l => prefixFor op.type ++ l))).take
    maxLines
  joinS '\n' (("--- a/" ++ relPath) :: ("+++ b/" ++ relPath) :: body)

def buildUnifiedDiff (relPath : String) (a b : List String) (maxLines : Nat) : String :=
  buildUnifiedDiffOps relPath (diffLines a b) maxLines

/-! ## SHA-256 (`crypto.createHash("sha256")`), on `Nat` mod `2^32` -/

def w32 (n : Nat) : Nat := n % 4294967296

def rotr32 (n k : Nat) : Nat := w32 (n / 2 ^ k + n % 2 ^ k * 2 ^ (32 - k))

def shr32 (n k : Nat) : Nat := n / 2 ^ k

def xor3 (a b c : Nat) : Nat := Nat.xor (Nat.xor a b) c

def sha256K : List Nat :=
  [1116352408, 1899447441, 3049323471, 3921009573, 961987163,
   1508970993, 2453635748, 2870763221, 3624381080, 310598401,
   607225278, 1426881987, 1925078388, 2162078206, 2614888103,
   3248222580, 3835390401, 4022224774, 264347078, 604807628,
   770255983, 1249150122, 1555081692, 1996064986, 2554220882,
   2821834349, 2952996808, 3210313671, 3336571891, 3584528711,
   113926993, 338241895, 666307205, 773529912, 1294757372,
   1396182291, 1695183700, 1986661051, 2177026350, 2456956037,
   2730485921, 2820302411, 3259730800, 3345764771, 3516065817,
   3600352804, 4094571909, 275423344, 430227734, 506948616,
   659060556, 883997877, 958139571, 1322822218, 1537002063,
   1747873779, 1955562222, 2024104815, 2227730452, 2361852424,
   2428436474, 2756734187, 3204031479, 3329325298]

/-- UTF-8 encoding of one scalar value. -/
def charUtf8Bytes (c : Char) : List Nat :=
  let n := c.toNat
  if n < 0x80 then [n]
  else if n < 0x800 then [0xc0 + n / 64, 0x80 + n % 64]
  else if n < 0x10000 then [0xe0 + n / 4096, 0x80 + n / 64 % 64, 0x80 + n % 64]
  else [0xf0 + n / 262144, 0x80 + n / 4096 % 64, 0x80 + n / 64 % 64, 0x80 + n % 64]

def utf8Bytes (s : String) : List Nat := s.data.flatMap charUtf8Bytes

def sha256Pad (msg : List Nat) : List Nat :=
  let L := msg.length
  let zeros := (64 - (L + 9) % 64) % 64
  let lenBits := L * 8
  msg ++ [0x80] ++ List.replicate zeros 0 ++
    (List.range 8).map (fun i => lenBits / 2 ^ (8 * (7 - i)) % 256)

def bytesToWords : List Nat → List Nat
  | b0 :: b1 :: b2 :: b3 :: rest =>
    (b0 * 16777216 + b1 * 65536 + b2 * 256 + b3) :: bytesToWords rest
  | _ => []

def smallSigma0 (x : Nat) : Nat := xor3 (rotr32 x 7) (rotr32 x 18) (shr32 x 3)
def smallSigma1 (x : Nat) : Nat := xor3 (rotr32 x 17) (rotr32 x 19) (shr32 x 10)
def bigSigma0 (x : Nat) : Nat := xor3 (rotr32 x 2) (rotr32 x 13) (rotr32 x 22)
def bigSigma1 (x : Nat) : Nat := xor3 (rotr32 x 6) (rotr32 x 11) (rotr32 x 25)

def sha256Extend (w : List Nat) : Nat → List Nat
  | 0 => w
  | k + 1 =>
    let w' := sha256Extend w k
    let t := w32 (smallSigma1 (w'.getD (w'.length - 2) 0) +
      w'.getD (w'.length - 7) 0 + smallSigma0 (w'.getD (w'.length - 15) 0) +
      w'.getD (w'.length - 16) 0)
    w' ++ [t]

def sha256Round (s : List Nat) (k w : Nat) : List Nat :=
  match s with
  | [a, b, c, d, e, f, g, h] =>
    let ch := Nat.xor (Nat.land e f) (Nat.land (Nat.xor e 4294967295) g)
    let t1 := w32 (h + bigSigma1 e + ch + k + w)
    let maj := xor3 (Nat.land a b) (Nat.land a c) (Nat.land b c)
    let t2 := w32 (bigSigma0 a + maj)
    [w32 (t1 + t2), a, b, c, w32 (d + t1), e, f, g]
  | _ => s

def sha256Compress (h : List Nat) (block : List Nat) : List Nat :=
  let w := sha256Extend (bytesToWords block) 48
  let s := (sha256K.zip w).foldl (fun s kw => sha256Round s kw.1 kw.2) h
  (h.zip s).map (fun p => w32 (p.1 + p.2))

def chunks64 : List Nat → Nat → List (List Nat)
  | _, 0 => []
  | bytes, fuel + 1 =>
    if bytes.length = 0 then []
    else bytes.take 64 :: chunks64 (bytes.drop 64) fuel

def hexDigit (n : Nat) : Char :=
  if n < 10 then Char.ofNat (48 + n) else Char.ofNat (87 + n)

def word32Hex (n : Nat) : List Char :=
  (List.range 8).map (fun i => hexDigit (n / 16 ^ (7 - i) % 16))

/-- `crypto.createHash("sha256").update(s, "utf8").digest("hex")`. -/
def sha256Hex (s : String) : String :=
  let msg := sha256Pad (utf8Bytes s)
  let h0 := [1779033703, 3144134277, 1013904242, 2773480762,
             1359893119, 2600822924, 528734635, 1541459225]
  let hf := (chunks64 msg (msg.length + 1)).foldl sha256Compress h0
  String.mk (hf.flatMap word32Hex)

/-! ## Tool state (`RepoTools`, `tools.ts` / `unnamed/part_002`) -/

structure BaselineEntry where
  bytes : Nat
  content : Option String
  deriving DecidableEq

/-- The parsed baseline snapshot JSON
`{createdAt, maxReadBytes, files: {relPath: {bytes, content|null}}}`. -/
structure Baseline where
  createdAt : String
  maxReadBytes : Nat
  files : List (String × BaselineEntry)
  deriving DecidableEq

/-- Session state of `RepoTools`: the live tree, the baseline snapshot file
(stored outside the sandboxed root; `none` when missing — the
`getBaselinePath` location checks are host-environment-bound and collapse
into the missing case here), and the `readFilesThisRun` set. -/
structure AgentState where
  fs : Node
  baseline : Option Baseline
  readFilesThisRun : List String
  deriving DecidableEq

def addGate (g : List String) (rel : String) : List String :=
  if rel ∈ g then g else g ++ [rel]

/-- Error taxonomy: one constructor per `throw new Error(...)` site of the
operations (the dispatcher surfaces the message as `{ok:false, error}`). -/
inductive Err where
  | sec : SecError → Err
  /-- `fs.statSync` threw (target vanished / never existed). -/
  | statFailed : Err
  /-- `Not a file: ...` -/
  | notAFile : String → Err
  /-- `File too large for read_file (...)` -/
  | tooLargeRead : Nat → String → Err
  /-- `Content too large for write_file (...)` -/
  | tooLargeWrite : Nat → String → Err
  /-- `MUST read_file before write_file for existing file: ...` -/
  | readRequiredWrite : String → Err
  /-- `MUST read_file before delete_file` -/
  | readRequiredDelete : Err
  /-- `paths is required and must be a non-empty array` -/
  | pathsRequired : Err
  /-- `Too many paths for ... (...)` -/
  | tooManyPaths : Nat → Err
  /-- `query is required` -/
  | queryRequired : Err
  /-- `Baseline snapshot not found. ...` -/
  | baselineNotFound : Err
  /-- `File too large for diff (...)` (`safeRead`) -/
  | tooLargeDiff : Err
  /-- `patch is required` -/
  | patchRequired : Err
  /-- `Invalid patch format: expected '+++ b/...' after '--- a/...'` -/
  | invalidPatchFormat : Err
  /-- `Invalid patch headers: empty path` -/
  | emptyHeaderPath : Err
  /-- `Invalid patch line` -/
  | invalidPatchLine : Err
  /-- `No file sections found in patch` -/
  | noSections : Err
  /-- `MUST read_file before apply_patch for existing file: ...` -/
  | readRequiredPatch : String → Err
  /-- `Contextual patch failed for <rel>: expected exactly one occurrence of
  base block, found <count>.` -/
  | ambiguousFragment : String → Nat → Err
  /-- `Patch for <rel> implies non-empty base, but file does not exist. ...` -/
  | newFileNonEmptyBase : String → Err
  /-- `Resulting content too large for apply_patch (...)` -/
  | tooLargePatch : Nat → String → Err
  deriving DecidableEq

def clamp (x lo hi : Nat) : Nat := min (max x lo) hi

/-! ### Read / write / delete / stat operations -/

structure ReadResult where
  path : String
  bytes : Nat
  content : String
  deriving DecidableEq

/-- `readFile` (`read_file`): marks the path read on success. -/
def readFile (opts : SandboxOptions) (st : AgentState) (p : String) :
    Except Err ReadResult × AgentState :=
  match resolveInRepo opts st.fs p with
  | .error e => (.error (.sec e), st)
  | .ok sp =>
    match statNode st.fs sp.absSegs with
    | none => (.error .statFailed, st)
    | some (.file c) =>
      if opts.maxReadBytes < utf8Len c then
        (.error (.tooLargeRead (utf8Len c) sp.relPath), st)
      else
        (.ok ⟨sp.relPath, utf8Len c, c⟩,
         { st with readFilesThisRun := addGate st.readFilesThisRun sp.relPath })
    | some _ => (.error (.notAFile sp.relPath), st)

inductive BatchNote where
  | notFound | notFile | tooLarge
  | errMsg : Err → BatchNote
  deriving DecidableEq

structure BatchReadEntry where
  path : String
  bytes : Nat
  content : Option String
  note : Option BatchNote
  deriving DecidableEq

/-- The per-path `try { ... } catch` body of `readFilesBatch`: produces the
result entry and the possibly grown read set. -/
def batchEntryOf (opts : SandboxOptions) (fs : Node) (gate : List String)
    (p : String) : BatchReadEntry × List String :=
  match resolveInRepo opts fs p with
  | .error e => ((⟨p, 0, none, some (.errMsg (.sec e))⟩ : BatchReadEntry), gate)
  | .ok sp =>
    match statNode fs sp.absSegs with
    | none => (⟨sp.relPath, 0, none, some .notFound⟩, gate)
    | some (.file c) =>
      if opts.maxReadBytes < utf8Len c then
        (⟨sp.relPath, utf8Len c, none, some .tooLarge⟩, gate)
      else (⟨sp.relPath, utf8Len c, some c, none⟩, addGate gate sp.relPath)
    | some n => (⟨sp.relPath, nodeSize n, none, some .notFile⟩, gate)

def readFilesBatchGo (opts : SandboxOptions) (fs : Node) :
    List String → List String → List BatchReadEntry × List String
  | [], gate => ([], gate)
  | p :: rest, gate =>
    ((batchEntryOf opts fs gate p).1 ::
       (readFilesBatchGo opts fs rest (batchEntryOf opts fs gate p).2).1,
     (readFilesBatchGo opts fs rest (batchEntryOf opts fs gate p).2).2)

/-- `readFilesBatch` (`read_files_batch`): per-path try/catch, marks each
successfully read path. -/
def readFilesBatch (opts : SandboxOptions) (st : AgentState) (paths : List String) :
    Except Err (List BatchReadEntry) × AgentState :=
  if paths.length = 0 then (.error .pathsRequired, st)
  else if 50 < paths.length then (.error (.tooManyPaths paths.length), st)
  else
    (.ok (readFilesBatchGo opts st.fs paths st.readFilesThisRun).1,
     { st with readFilesThisRun :=
         (readFilesBatchGo opts st.fs paths st.readFilesThisRun).2 })

structure WriteResult where
  path : String
  bytes : Nat
  deriving DecidableEq

/-- `writeFile` (`write_file`): size check, then the read-before-write gate
for existing files, then the write. -/
def writeFile (opts : SandboxOptions) (st : AgentState) (p content : String) :
    Except Err WriteResult × AgentState :=
  match resolveInRepo opts st.fs p with
  | .error e => (.error (.sec e), st)
  | .ok sp =>
    if opts.maxWriteBytes < utf8Len content then
      (.error (.tooLargeWrite (utf8Len content) sp.relPath), st)
    else if existsF st.fs sp.absSegs ∧ sp.relPath ∉ st.readFilesThisRun then
      (.error (.readRequiredWrite sp.relPath), st)
    else
      (.ok ⟨sp.relPath, utf8Len content⟩, { st with fs := setFile st.fs sp.absSegs content })

structure DeleteResult where
  path : String
  deleted : Bool
  reason : Option String
  deriving DecidableEq

/-- `deleteFile` (`delete_file`): read-before-delete gate for existing
files. -/
def deleteFile (opts : SandboxOptions) (st : AgentState) (p : String) :
    Except Err DeleteResult × AgentState :=
  match resolveInRepo opts st.fs p with
  | .error e => (.error (.sec e), st)
  | .ok sp =>
    if ¬ existsF st.fs sp.absSegs then (.ok ⟨sp.relPath, false, some "not_found"⟩, st)
    else
      match statNode st.fs sp.absSegs with
      | some (.file _) =>
        if sp.relPath ∉ st.readFilesThisRun then (.error .readRequiredDelete, st)
        else (.ok ⟨sp.relPath, true, none⟩,
              { st with fs := removeFile st.fs sp.absSegs })
      | some _ => (.error (.notAFile sp.relPath), st)
      | none => (.error .statFailed, st)

structure StatEntry where
  path : String
  exists_ : Bool
  is_file : Bool
  bytes : Nat
  deriving DecidableEq

def isFileNode : Node → Bool
  | .file _ => true
  | _ => false

/-- `statFilesBatch` (`stat_files_batch`). -/
def statFilesBatch (opts : SandboxOptions) (st : AgentState) (paths : List String) :
    Except Err (List StatEntry) :=
  if paths.length = 0 then .error .pathsRequired
  else if 200 < paths.length then .error (.tooManyPaths paths.length)
  else .ok (paths.map fun p =>
    match resolveInRepo opts st.fs p with
    | .error _ => ⟨p, false, false, 0⟩
    | .ok sp =>
      match statNode st.fs sp.absSegs with
      | some n => ⟨sp.relPath, true, isFileNode n, nodeSize n⟩
      | none => ⟨sp.relPath, false, false, 0⟩)

/-! ### Listing and search -/

structure ListFilesResult where
  files : List String
  total : Nat
  deriving DecidableEq

/-- `listFiles` (`list_files`). -/
def listFiles (opts : SandboxOptions) (st : AgentState)
    (prefix? : Option String) (limit? : Option Nat) : ListFilesResult :=
  let all := listFilesRecursive st.fs opts 5000
  let pre := trimS (prefix?.getD "")
  let out := if pre = "" then all else all.filter (fun p => startsWithS p pre)
  let limit := clamp (limit?.getD 2000) 1 5000
  ⟨out.take limit, out.length⟩

structure SearchMatch where
  path : String
  line : Nat
  text : String
  deriving DecidableEq

structure SearchResult where
  query : String
  matches_ : List SearchMatch
  scanned_files : Nat
  deriving DecidableEq

def searchLinesGo (relPath query : String) (limitMatches : Nat) :
    List String → Nat → List SearchMatch → List SearchMatch
  | [], _, acc => acc
  | l :: rest, i, acc =>
    if limitMatches ≤ acc.length then acc
    else if includesS l query then
      searchLinesGo relPath query limitMatches rest (i + 1)
        (acc ++ [⟨relPath, i + 1, takeS 400 l⟩])
    else searchLinesGo relPath query limitMatches rest (i + 1) acc

def searchFilesGo (opts : SandboxOptions) (fs : Node) (query : String)
    (limitMatches : Nat) : List String → List SearchMatch → List SearchMatch
  | [], acc => acc
  | rel :: rest, acc =>
    if limitMatches ≤ acc.length then acc
    else
      match resolveInRepo opts fs rel with
      | .error _ => searchFilesGo opts fs query limitMatches rest acc
      | .ok sp =>
        match statNode fs sp.absSegs with
        | some (.file c) =>
          if opts.maxReadBytes < utf8Len c then
            searchFilesGo opts fs query limitMatches rest acc
          else if ¬ includesS c query then
            searchFilesGo opts fs query limitMatches rest acc
          else
            searchFilesGo opts fs query limitMatches rest
              (searchLinesGo sp.relPath query limitMatches (splitLines c) 0 acc)
        | _ => searchFilesGo opts fs query limitMatches rest acc

/-- `searchInFiles` (`search_in_files`): substring scan over the safely
listed tree; files that fail safe resolution are skipped. -/
def searchInFiles (opts : SandboxOptions) (st : AgentState) (query : String)
    (prefix? : Option String) (limitFiles? limitMatches? : Option Nat) :
    Except Err SearchResult :=
  if query = "" then .error .queryRequired
  else
    let pre := trimS (prefix?.getD "")
    let limitFiles := clamp (limitFiles?.getD 800) 1 2000
    let limitMatches := clamp (limitMatches?.getD 200) 1 2000
    let all := ((listFilesRecursive st.fs opts 5000).filter
      (fun p => pre = "" ∨ startsWithS p pre)).take limitFiles
    .ok ⟨query, searchFilesGo opts st.fs query limitMatches all [], all.length⟩

/-! ### Baseline operations -/

def lookupA {α : Type} (l : List (String × α)) (k : String) : Option α :=
  match l.find? (fun kv => kv.1 = k) with
  | some kv => some kv.2
  | none => none

/-- `loadBaseline`: read and parse the snapshot file.  `none` collapses the
missing-file / bad-location / bad-JSON throws into `BaselineNotFound`. -/
def loadBaseline (st : AgentState) : Except Err Baseline :=
  match st.baseline with
  | some b => .ok b
  | none => .error .baselineNotFound

structure BaselineInfo where
  created_at : String
  files : Nat
  maxReadBytes : Nat
  deriving DecidableEq

/-- `getBaselineInfo` (`get_baseline_info`). -/
def getBaselineInfo (st : AgentState) : Except Err BaselineInfo :=
  match loadBaseline st with
  | .error e => .error e
  | .ok b => .ok ⟨b.createdAt, b.files.length, b.maxReadBytes⟩

structure ChangedResult where
  baseline_files : Nat
  current_files : Nat
  added : List String
  deleted : List String
  modified : List String
  deriving DecidableEq

/-- The `modified` loop of `listChangedFiles`: for a path present in both
trees, compare sizes first; only when the baseline entry still carries
content (and the file is readable) compare contents. -/
def changedModGo (opts : SandboxOptions) (fs : Node) (b : Baseline)
    (filt : String → Bool) (baselineKeys : List String) : List String → List String
  | [] => []
  | p :: rest =>
    let restOut := changedModGo opts fs b filt baselineKeys rest
    if ¬ baselineKeys.contains p then restOut
    else if ¬ filt p then restOut
    else
      let abs := normAbs (splitPath opts.repoRoot ++ splitPath p)
      match statNode fs abs with
      | none => restOut
      | some n =>
        match lookupA b.files p with
        | none => restOut
        | some base =>
          if nodeSize n ≠ base.bytes then p :: restOut
          else
            match base.content with
            | some bc =>
              if nodeSize n ≤ opts.maxReadBytes then
                match readF fs abs with
                | some cur => if cur ≠ bc then p :: restOut else restOut
                | none => restOut
              else restOut
            | none => restOut

/-- `listChangedFiles` (`list_changed_files`). -/
def listChangedFiles (opts : SandboxOptions) (st : AgentState)
    (prefix? : Option String) (limit? : Option Nat) : Except Err ChangedResult :=
  match loadBaseline st with
  | .error e => .error e
  | .ok b =>
    let baselineFiles := b.files.map (·.1)
    let currentFiles := listFilesRecursive st.fs opts 5000
    let pre := trimS (prefix?.getD "")
    let filt := fun p => pre = "" ∨ startsWithS p pre
    let added := currentFiles.filter (fun p => ¬ baselineFiles.contains p ∧ filt p)
    let deleted := baselineFiles.filter (fun p => ¬ currentFiles.contains p ∧ filt p)
    let modified := changedModGo opts st.fs b filt baselineFiles currentFiles
    let limit := clamp (limit?.getD 2000) 1 5000
    .ok ⟨baselineFiles.length, currentFiles.length,
         added.take limit, deleted.take limit, modified.take limit⟩

structure OrigResult where
  path : String
  existed : Bool
  bytes : Option Nat
  content : Option String
  deriving DecidableEq

/-- `readFileOriginal` (`read_file_original`). -/
def readFileOriginal (opts : SandboxOptions) (st : AgentState) (p : String) :
    Except Err OrigResult :=
  match resolveInRepo opts st.fs p with
  | .error e => .error (.sec e)
  | .ok sp =>
    match loadBaseline st with
    | .error e => .error e
    | .ok b =>
      match lookupA b.files sp.relPath with
      | none => .ok ⟨sp.relPath, false, none, none⟩
      | some e => .ok ⟨sp.relPath, true, some e.bytes, e.content⟩

/-! ### Diff operations -/

/-- `safeRead(absPath, limit)` -/
def safeRead (fs : Node) (segs : List String) (limit : Nat) : Except Err String :=
  match statNode fs segs with
  | none => .error .statFailed
  | some n =>
    if limit < nodeSize n then .error .tooLargeDiff
    else .ok ((readF fs segs).getD "")

structure DiffSummary where
  before_bytes : Nat
  after_bytes : Nat
  added_lines : Nat
  removed_lines : Nat
  deriving DecidableEq

structure DiffOrigResult where
  path : String
  status : String
  summary : DiffSummary
  diff_text : Option String
  note : Option String
  deriving DecidableEq

def isCurrentFile (fs : Node) (segs : List String) : Bool :=
  match statNode fs segs with
  | some (.file _) => true
  | _ => false

def lineLimitHeader (rel : String) (total : Nat) : String :=
  "--- a/" ++ rel ++ "\n+++ b/" ++ rel ++
    "\n@@ DIFF OMITTED: total line limit exceeded (" ++ toString total ++ " > 10000) @@"

/-- `diffFileAgainstOriginal` (`diff_file_against_original`). -/
def diffFileAgainstOriginal (opts : SandboxOptions) (st : AgentState)
    (p : String) (maxLines? : Option Nat) : Except Err DiffOrigResult :=
  match resolveInRepo opts st.fs p with
  | .error e => .error (.sec e)
  | .ok sp =>
    match loadBaseline st with
    | .error e => .error e
    | .ok b =>
      let rel := sp.relPath
      let currentExists := isCurrentFile st.fs sp.absSegs
      let maxLines := clamp (maxLines?.getD 2000) 1 10000
      match lookupA b.files rel with
      | none =>
        if ¬ currentExists then
          .ok ⟨rel, "unchanged", ⟨0, 0, 0, 0⟩, none,
               some "File did not exist in baseline and still does not exist."⟩
        else
          match safeRead st.fs sp.absSegs opts.maxReadBytes with
          | .error e => .error e
          | .ok content =>
            let lines := splitLines content
            .ok ⟨rel, "added", ⟨0, utf8Len content, lines.length, 0⟩,
                 some (buildUnifiedDiff rel [] lines maxLines), none⟩
      | some base =>
        if ¬ currentExists then
          let baseLines := splitLines (base.content.getD "")
          .ok ⟨rel, "deleted", ⟨base.bytes, 0, 0, baseLines.length⟩,
               some (buildUnifiedDiff rel baseLines [] maxLines), none⟩
        else
          match statNode st.fs sp.absSegs with
          | none => .error .statFailed
          | some n =>
            match base.content with
            | none =>
              let changed := nodeSize n ≠ base.bytes
              .ok ⟨rel, if changed then "modified" else "unchanged",
                   ⟨base.bytes, nodeSize n, 0, 0⟩, none,
                   some "Original file too large for content diff; compared by size only."⟩
            | some baseContent =>
              if opts.maxReadBytes < nodeSize n then
                let beforeBytes := utf8Len baseContent
                let baseHash := sha256Hex baseContent
                .ok ⟨rel, if beforeBytes = nodeSize n then "unchanged" else "modified",
                     ⟨beforeBytes, nodeSize n, 0, 0⟩,
                     some ("--- a/" ++ rel ++ "\n+++ b/" ++ rel ++
                       "\n@@ DIFF OMITTED: file too large for content read @@"),
                     some ("Diff omitted due to size limit. before_bytes=" ++
                       toString beforeBytes ++ ", after_bytes=" ++ toString (nodeSize n) ++
                       ", before_sha256=" ++ baseHash ++ ", after_sha256=unavailable")⟩
              else
                let currentContent := (readF st.fs sp.absSegs).getD ""
                let baseLines := splitLines baseContent
                let curLines := splitLines currentContent
                if 10000 < baseLines.length + curLines.length then
                  let beforeBytes := utf8Len baseContent
                  let afterBytes := utf8Len currentContent
                  let baseHash := sha256Hex baseContent
                  let curHash := sha256Hex currentContent
                  let isMod := beforeBytes ≠ afterBytes ∨ baseHash ≠ curHash
                  .ok ⟨rel, if isMod then "modified" else "unchanged",
                       ⟨beforeBytes, afterBytes, 0, 0⟩,
                       some (lineLimitHeader rel (baseLines.length + curLines.length)),
                       some ("Diff omitted due to line limit. before_bytes=" ++
                         toString beforeBytes ++ ", after_bytes=" ++ toString afterBytes ++
                         ", before_sha256=" ++ baseHash ++ ", after_sha256=" ++ curHash)⟩
                else
                  let ops := diffLines baseLines curLines
                  let added := countType .add ops
                  let removed := countType .remove ops
                  .ok ⟨rel, if added = 0 ∧ removed = 0 then "unchanged" else "modified",
                       ⟨utf8Len baseContent, utf8Len currentContent, added, removed⟩,
                       some (buildUnifiedDiffOps rel ops maxLines), none⟩

structure DiffCurResult where
  path : String
  diff_text : String
  deriving DecidableEq

/-- `diffFileAgainstCurrent` (`diff_file_against_current`): read-only. -/
def diffFileAgainstCurrent (opts : SandboxOptions) (st : AgentState)
    (p proposed : String) (maxLines? : Option Nat) : Except Err DiffCurResult :=
  match resolveInRepo opts st.fs p with
  | .error e => .error (.sec e)
  | .ok sp =>
    let exists_ := isCurrentFile st.fs sp.absSegs
    let current? : Except Err String :=
      if exists_ then safeRead st.fs sp.absSegs opts.maxReadBytes else .ok ""
    match current? with
    | .error e => .error e
    | .ok currentContent =>
      let maxLines := clamp (maxLines?.getD 2000) 1 10000
      let curLines := splitLines currentContent
      let propLines := splitLines proposed
      if 10000 < curLines.length + propLines.length then
        .ok ⟨sp.relPath, lineLimitHeader sp.relPath (curLines.length + propLines.length)⟩
      else
        .ok ⟨sp.relPath,
             buildUnifiedDiffOps sp.relPath (diffLines curLines propLines) maxLines⟩

/-! ### Patch applier (`applyPatch`, `tools.ts`) -/

/-- One parsed file section: the `+++ b/` target and the prefixed body
lines. -/
structure PatchSection where
  relPath : String
  lines : List String
  deriving DecidableEq

/-- The body scan: consume lines until the next `--- a/` header or end of
input; every consumed line must start with space, `+` or `-`. -/
def scanBody : List String → Except Err (List String × List String)
  | [] => .ok ([], [])
  | l :: rest =>
    if startsWithS l "--- a/" then .ok ([], l :: rest)
    else if startsWithS l " " ∨ startsWithS l "+" ∨ startsWithS l "-" then
      match scanBody rest with
      | .error e => .error e
      | .ok (b, r) => .ok (l :: b, r)
    else .error .invalidPatchLine

/-- The header-scanning loop of `applyPatch` (fuel: one unit per line, so
`lines.length + 1` always suffices). -/
def parseSectionsGo : Nat → List String → Except Err (List PatchSection)
  | 0, _ => .ok []
  | _ + 1, [] => .ok []
  | fuel + 1, l :: rest =>
    if startsWithS l "--- a/" then
      match rest with
      | [] => .error .invalidPatchFormat
      | next :: rest2 =>
        if ¬ startsWithS next "+++ b/" then .error .invalidPatchFormat
        else
          let pathA := trimS (dropS 6 l)
          let pathB := trimS (dropS 6 next)
          if pathA = "" ∨ pathB = "" then .error .emptyHeaderPath
          else
            match scanBody rest2 with
            | .error e => .error e
            | .ok (body, rest3) =>
              match parseSectionsGo fuel rest3 with
              | .error e => .error e
              | .ok secs => .ok (⟨pathB, body⟩ :: secs)
    else parseSectionsGo fuel rest

def parseSections (patch : String) : Except Err (List PatchSection) :=
  let lines := splitS '\n' (String.mk (normalizeCRLF patch.data))
  parseSectionsGo (lines.length + 1) lines

/-- `baseFromPatch` / `afterFromPatch` from a section body: context lines go
to both, `-` lines to the base, `+` lines to the after fragment. -/
def fragmentsOf : List String → List String × List String
  | [] => ([], [])
  | l :: rest =>
    let (base, after) := fragmentsOf rest
    if startsWithS l " " then (dropS 1 l :: base, dropS 1 l :: after)
    else if startsWithS l "-" then (dropS 1 l :: base, after)
    else if startsWithS l "+" then (base, dropS 1 l :: after)
    else (base, after)

/-- A validated, not-yet-written file update (first pass of `applyPatch`). -/
structure Planned where
  relPath : String
  absSegs : List String
  existedBefore : Bool
  beforeBytes : Nat
  afterBytes : Nat
  newContent : String
  deriving DecidableEq

/-- The `newContent` computation of one `applyPatch` section (`baseStr` is
the joined context+removed lines, `curStr` the re-joined current lines):
read gate, whole-file ("legacy") replacement when the full content equals
the base fragment, otherwise contextual single-occurrence replacement of
`baseStr + "\n"`; for a new file the base must be empty. -/
def newContentOf (gate : List String) (relPath : String) (existsB : Bool)
    (beforeContent : String) (body : List String) : Except Err String :=
  if existsB then
    if relPath ∉ gate then .error (.readRequiredPatch relPath)
    else if joinS '\n' (splitLines beforeContent) = joinS '\n' (fragmentsOf body).1 then
      .ok (joinS '\n' (fragmentsOf body).2)
    else if countOcc beforeContent.data
        ((joinS '\n' (fragmentsOf body).1 ++ "\n")).data ≠ 1 then
      .error (.ambiguousFragment relPath
        (countOcc beforeContent.data ((joinS '\n' (fragmentsOf body).1 ++ "\n")).data))
    else
      .ok (String.mk (replaceFirstJS beforeContent.data
        ((joinS '\n' (fragmentsOf body).1 ++ "\n")).data
        ((joinS '\n' (fragmentsOf body).2 ++ "\n")).data))
  else
    if (fragmentsOf body).1 ≠ [] ∧ trimS (joinS '\n' (fragmentsOf body).1) ≠ "" then
      .error (.newFileNonEmptyBase relPath)
    else .ok (joinS '\n' (fragmentsOf body).2)

/-- First-pass validation of one section: read gate, whole-file match or
contextual single-occurrence replacement, new-file empty-base rule, and the
write size limit.  No filesystem mutation. -/
def planSection (opts : SandboxOptions) (fs : Node) (gate : List String)
    (sec : PatchSection) : Except Err Planned :=
  match resolveInRepo opts fs sec.relPath with
  | .error e => .error (.sec e)
  | .ok sp =>
    match newContentOf gate sp.relPath (isCurrentFile fs sp.absSegs)
        (if isCurrentFile fs sp.absSegs then (readF fs sp.absSegs).getD "" else "")
        sec.lines with
    | .error e => .error e
    | .ok newContent =>
      if opts.maxWriteBytes < utf8Len newContent then
        .error (.tooLargePatch (utf8Len newContent) sp.relPath)
      else
        .ok ⟨sp.relPath, sp.absSegs, isCurrentFile fs sp.absSegs,
             utf8Len (if isCurrentFile fs sp.absSegs then
               (readF fs sp.absSegs).getD "" else ""),
             utf8Len newContent, newContent⟩

/-- First pass over all sections (stops at the first failure, before any
write). -/
def planSections (opts : SandboxOptions) (fs : Node) (gate : List String) :
    List PatchSection → Except Err (List Planned)
  | [] => .ok []
  | sec :: rest =>
    match planSection opts fs gate sec with
    | .error e => .error e
    | .ok w =>
      match planSections opts fs gate rest with
      | .error e => .error e
      | .ok ws => .ok (w :: ws)

structure ApplyEntry where
  path : String
  existed_before : Bool
  before_bytes : Nat
  after_bytes : Nat
  status : String
  deriving DecidableEq

structure ApplyResult where
  files : List ApplyEntry
  deriving DecidableEq

def applyEntryOf (w : Planned) : ApplyEntry :=
  ⟨w.relPath, w.existedBefore, w.beforeBytes, w.afterBytes,
   if w.existedBefore then
     (if w.beforeBytes = w.afterBytes then "unchanged" else "modified")
   else "created"⟩

/-- `applyPatch` (`apply_patch`): parse all sections, validate all sections
(first pass), then perform all writes (second pass). -/
def applyPatch (opts : SandboxOptions) (st : AgentState) (patch : String) :
    Except Err ApplyResult × AgentState :=
  if trimS patch = "" then (.error .patchRequired, st)
  else
    match parseSections patch with
    | .error e => (.error e, st)
    | .ok sections =>
      if sections.length = 0 then (.error .noSections, st)
      else
        match planSections opts st.fs st.readFilesThisRun sections with
        | .error e => (.error e, st)
        | .ok planned =>
          let fs' := planned.foldl (fun f w => setFile f w.absSegs w.newContent) st.fs
          (.ok ⟨planned.map applyEntryOf⟩, { st with fs := fs' })

/-! ### Dispatcher (`RepoTools.dispatch`) -/

inductive Call where
  | list_files : Option String → Option Nat → Call
  | read_file : String → Call
  | read_files_batch : List String → Call
  | write_file : String → String → Call
  | delete_file : String → Call
  | stat_files_batch : List String → Call
  | search_in_files : String → Option String → Option Nat → Option Nat → Call
  | get_baseline_info : Call
  | list_changed_files : Option String → Option Nat → Call
  | read_file_original : String → Call
  | diff_file_against_original : String → Option Nat → Call
  | diff_file_against_current : String → String → Option Nat → Call
  | apply_patch : String → Call
  deriving DecidableEq

inductive Out where
  | listFilesR : ListFilesResult → Out
  | readFileR : ReadResult → Out
  | readFilesBatchR : List BatchReadEntry → Out
  | writeFileR : WriteResult → Out
  | deleteFileR : DeleteResult → Out
  | statFilesBatchR : List StatEntry → Out
  | searchR : SearchResult → Out
  | baselineInfoR : BaselineInfo → Out
  | changedR : ChangedResult → Out
  | origR : OrigResult → Out
  | diffOrigR : DiffOrigResult → Out
  | diffCurR : DiffCurResult → Out
  | applyR : ApplyResult → Out
  deriving DecidableEq

/-- The operation dispatcher: a closed switch over tool names; every thrown
failure is caught and returned as a failed result, the session (state)
continues. -/
def dispatch (opts : SandboxOptions) (st : AgentState) : Call → Except Err Out × AgentState
  | .list_files pre lim => (.ok (.listFilesR (listFiles opts st pre lim)), st)
  | .read_file p =>
    ((readFile opts st p).1.map .readFileR, (readFile opts st p).2)
  | .read_files_batch ps =>
    ((readFilesBatch opts st ps).1.map .readFilesBatchR, (readFilesBatch opts st ps).2)
  | .write_file p c =>
    ((writeFile opts st p c).1.map .writeFileR, (writeFile opts st p c).2)
  | .delete_file p =>
    ((deleteFile opts st p).1.map .deleteFileR, (deleteFile opts st p).2)
  | .stat_files_batch ps => ((statFilesBatch opts st ps).map .statFilesBatchR, st)
  | .search_in_files q pre lf lm =>
    ((searchInFiles opts st q pre lf lm).map .searchR, st)
  | .get_baseline_info => ((getBaselineInfo st).map .baselineInfoR, st)
  | .list_changed_files pre lim => ((listChangedFiles opts st pre lim).map .changedR, st)
  | .read_file_original p => ((readFileOriginal opts st p).map .origR, st)
  | .diff_file_against_original p ml =>
    ((diffFileAgainstOriginal opts st p ml).map .diffOrigR, st)
  | .diff_file_against_current p c ml =>
    ((diffFileAgainstCurrent opts st p c ml).map .diffCurR, st)
  | .apply_patch patch =>
    ((applyPatch opts st patch).1.map .applyR, (applyPatch opts st patch).2)

/-! ## Concrete fixtures (shared by witnesses and counterexamples) -/

/-- The default sandbox policy of the repository's test suite. -/
def wOpts : SandboxOptions :=
  { repoRoot := "/repo", denyDirs := [".git", "node_modules", "dist"],
    denyFilesExact := [".env"], denyExtensions := [".pem", ".key"],
    maxReadBytes := 400000, maxWriteBytes := 800000 }

/-- A world whose `/repo` directory holds the given entries. -/
def wRepo (es : Entries) : Node := .dir (.cons "repo" (.dir es) .nil)

/-! ## C1 — `apply_patch` is all-or-nothing -/

/-- **C1.** `apply_patch` is all-or-nothing per invocation: every failure
(parse error, read-gate violation, new-file non-empty base, ambiguous
fragment, write size limit, …) is raised during parsing or the first
validation pass, before the second pass performs any write; so a failed
call leaves the session state — in particular every file on disk —
exactly as it was. -/
theorem apply_patch_all_or_nothing (opts : SandboxOptions) (st : AgentState)
    (patch : String) (e : Err) (st' : AgentState)
    (h : applyPatch opts st patch = (.error e, st')) : st' = st := by
  unfold applyPatch at h
  repeat' split at h
  all_goals simp_all

def c1Fs : Node :=
  wRepo (.cons "a.txt" (.file "one\n") (.cons "b.txt" (.file "x\ny\nx\n") .nil))

def c1St : AgentState := ⟨c1Fs, none, ["a.txt", "b.txt"]⟩

/-- A two-section patch whose first section is valid and whose second
section is ambiguous (base block `"x\n"` occurs twice in `b.txt`). -/
def c1Patch : String :=
  "--- a/a.txt\n+++ b/a.txt\n-one\n+ONE\n--- a/b.txt\n+++ b/b.txt\n-x\n+X"

theorem apply_patch_all_or_nothing_witness :
    applyPatch wOpts c1St c1Patch = (.error (.ambiguousFragment "b.txt" 2), c1St) ∧
    c1St = c1St :=
  ⟨rfl, apply_patch_all_or_nothing wOpts c1St c1Patch _ c1St rfl⟩

/-! ## C10 — `apply_patch` per-file status is decided by byte counts -/

theorem applyEntryOf_unchanged_iff (w : Planned)
    (hex : (applyEntryOf w).existed_before = true) :
    ((applyEntryOf w).status = "unchanged" ↔
      (applyEntryOf w).before_bytes = (applyEntryOf w).after_bytes) := by
  unfold applyEntryOf at hex ⊢
  simp only at hex ⊢
  rw [hex]
  by_cases hb : w.beforeBytes = w.afterBytes
  · simp [hb]
  · simp only [if_neg hb]
    constructor
    · intro hmod
      exact absurd hmod (by decide)
    · intro hbb
      exact absurd hbb hb

/-- **C10 (implicit).** In a successful `apply_patch`, the reported
`status` of a pre-existing file is computed from UTF-8 byte counts only:
it is `"unchanged"` iff the before- and after-contents have equal byte
lengths — even when the write changed the content (see the witness, where
the file content changes from `"x\n"` to `"y\n"` on disk yet is reported
`"unchanged"`). -/
theorem apply_patch_unchanged_iff_equal_bytes (opts : SandboxOptions)
    (st : AgentState) (patch : String) (res : ApplyResult) (st' : AgentState)
    (h : applyPatch opts st patch = (.ok res, st')) :
    ∀ r ∈ res.files, r.existed_before = true →
      (r.status = "unchanged" ↔ r.before_bytes = r.after_bytes) := by
  unfold applyPatch at h
  repeat' split at h
  all_goals simp_all
  rcases h with ⟨hres, _⟩
  subst hres
  intro r hr hex
  simp only [List.mem_map] at hr
  obtain ⟨w, _, rfl⟩ := hr
  exact applyEntryOf_unchanged_iff w hex

def c10Fs : Node := wRepo (.cons "same.txt" (.file "x\n") .nil)

def c10St : AgentState := ⟨c10Fs, none, ["same.txt"]⟩

def c10Patch : String := "--- a/same.txt\n+++ b/same.txt\n-x\n+y"

def c10Res : ApplyResult := ⟨[⟨"same.txt", true, 2, 2, "unchanged"⟩]⟩

theorem apply_patch_unchanged_iff_equal_bytes_witness :
    (applyPatch wOpts c10St c10Patch).1 = .ok c10Res ∧
    readF (applyPatch wOpts c10St c10Patch).2.fs ["repo", "same.txt"] = some "y\n" ∧
    readF c10St.fs ["repo", "same.txt"] = some "x\n" ∧
    (∀ r ∈ c10Res.files, r.existed_before = true →
      (r.status = "unchanged" ↔ r.before_bytes = r.after_bytes)) :=
  ⟨rfl, rfl, rfl,
   apply_patch_unchanged_iff_equal_bytes wOpts c10St c10Patch c10Res
     (applyPatch wOpts c10St c10Patch).2 rfl⟩

/-! ## C7 — `diffLines(X, X)` -/

theorem diffAtomsF_self (X : List String) :
    ∀ fuel, X.length ≤ fuel →
      diffAtomsF fuel X X = X.map (fun l => (DiffType.equal, l)) := by
  induction X with
  | nil =>
    intro fuel _
    cases fuel <;> simp [diffAtomsF]
  | cons a as ih =>
    intro fuel hf
    cases fuel with
    | zero => simp at hf
    | succ f =>
      have hlen : as.length ≤ f := by simpa using hf
      simp [diffAtomsF, ih f hlen]

theorem coalesce_uniform (t : DiffType) (a : String) (X : List String) :
    coalesce ((a :: X).map (fun l => (t, l))) = [⟨t, a :: X⟩] := by
  induction X generalizing a with
  | nil => simp [coalesce]
  | cons b bs ih =>
    simp only [List.map] at ih ⊢
    rw [coalesce]
    rw [ih b]
    simp

/-- **C7 (amended).** For every *non-empty* sequence `X`, `diffLines(X, X)`
is a single `equal` run containing exactly the lines of `X`, with zero
added and zero removed lines.  (For `X = []` the walk emits no ops at all
— see the counterexample — so the original "for any text sequence"
quantifier fails only there.) -/
theorem diffLines_self (X : List String) (h : X ≠ []) :
    diffLines X X = [⟨.equal, X⟩] ∧
    countType .add (diffLines X X) = 0 ∧
    countType .remove (diffLines X X) = 0 := by
  obtain ⟨a, as, rfl⟩ := List.exists_cons_of_ne_nil h
  have hd : diffLines (a :: as) (a :: as) = [⟨.equal, a :: as⟩] := by
    unfold diffLines diffAtoms
    rw [diffAtomsF_self (a :: as) _ (by omega)]
    exact coalesce_uniform .equal a as
  refine ⟨hd, ?_, ?_⟩ <;> rw [hd] <;> rfl

/-- `diffLines([], [])` is the empty op sequence, not a single `equal`
run: the original claim fails at `X = []`. -/
theorem diffLines_self_counterexample :
    diffLines ([] : List String) [] = [] ∧
    diffLines ([] : List String) [] ≠ [⟨.equal, ([] : List String)⟩] := by
  refine ⟨rfl, fun hc => ?_⟩
  rw [show diffLines ([] : List String) [] = [] from rfl] at hc
  simp at hc

theorem diffLines_self_witness :
    (["alpha", "beta"] : List String) ≠ [] ∧
    (diffLines ["alpha", "beta"] ["alpha", "beta"] = [⟨.equal, ["alpha", "beta"]⟩] ∧
     countType .add (diffLines ["alpha", "beta"] ["alpha", "beta"]) = 0 ∧
     countType .remove (diffLines ["alpha", "beta"] ["alpha", "beta"]) = 0) :=
  ⟨by decide, diffLines_self ["alpha", "beta"] (by decide)⟩

/-! ## C4 — sandbox confinement of `resolveInRepo` -/

/-- **C4 (amended).** Confinement of `resolveInRepo`:
(1) every successfully resolved path's canonical absolute form is a strict
descendant of the canonical root, never the root itself; and
(2) a user path whose canonicalisation (following symlinks) lands outside
the canonical root is rejected with `PathTraversal`.
A `..` segment alone does *not* force `PathTraversal`: `path.resolve`
normalises `..` lexically before any check, so a path such as
`"b/../a.txt"` that normalises back inside the root resolves successfully
(see the counterexample). -/
theorem resolve_confined (opts : SandboxOptions) (fs : Node) (userPath : String) :
    (∀ sp, resolveInRepo opts fs userPath = .ok sp →
      ∃ R, rootReal fs opts = some R ∧ R ≠ [] ∧
        R.isPrefixOf sp.absSegs ∧ R.length < sp.absSegs.length) ∧
    (∀ R r, ¬ userPath.data.contains '\x00' → trimS userPath ≠ "" →
      rootReal fs opts = some R →
      realpathF fs (candidateSegs R (trimS userPath)) = some r →
      strictUnder R r = false →
      resolveInRepo opts fs userPath = .error .pathTraversal) := by
  constructor
  · intro sp h
    unfold resolveInRepo at h
    split at h
    · exact absurd h (by simp)
    split at h
    · exact absurd h (by simp)
    split at h
    next => exact absurd h (by simp)
    next realRepo hroot =>
      split at h
      next => exact absurd h (by simp)
      next rc hcand =>
        split at h
        · exact absurd h (by simp)
        next hsu =>
          split at h
          · exact absurd h (by simp)
          split at h
          next => exact absurd h (by simp)
          next u hdir =>
            split at h
            · exact absurd h (by simp)
            next hdeny =>
              cases h
              rw [not_not] at hsu
              simp only [strictUnder, decide_eq_true_eq] at hsu
              exact ⟨realRepo, hroot, hsu.1, hsu.2.1, hsu.2.2⟩
  · intro R r h0 h1 hroot hreal hfalse
    have hrc : realCand fs (candidateSegs R (trimS userPath)) = some r := by
      unfold realCand
      rw [hreal]
    simp only [resolveInRepo, if_neg h0, if_neg h1, hroot, hrc, hfalse]
    simp

def c4Fs : Node := wRepo (.cons "a.txt" (.file "A\n") (.cons "b" (.dir .nil) .nil))

/-- The original C4 is too strong: `"b/../a.txt"` contains a `..` segment,
yet `resolveInRepo` accepts it (the `..` is removed by lexical
normalisation before the containment check, leaving `/repo/a.txt`). -/
theorem resolve_dotdot_counterexample :
    (splitPath "b/../a.txt").contains ".." = true ∧
    resolveInRepo wOpts c4Fs "b/../a.txt" = .ok ⟨["repo", "a.txt"], "a.txt"⟩ :=
  ⟨rfl, rfl⟩

/-- A repo containing a symlink whose target lies outside the root. -/
def c4LinkFs : Node :=
  .dir (.cons "repo" (.dir (.cons "link-out.txt" (.link "/outside/x.txt") .nil))
    (.cons "outside" (.dir (.cons "x.txt" (.file "X") .nil)) .nil))

theorem resolve_confined_witness :
    (∃ R, rootReal c4Fs wOpts = some R ∧ R ≠ [] ∧
      R.isPrefixOf (SafePath.mk ["repo", "a.txt"] "a.txt").absSegs ∧
      R.length < (SafePath.mk ["repo", "a.txt"] "a.txt").absSegs.length) ∧
    resolveInRepo wOpts c4LinkFs "link-out.txt" = .error .pathTraversal :=
  ⟨(resolve_confined wOpts c4Fs "b/../a.txt").1 ⟨["repo", "a.txt"], "a.txt"⟩ rfl,
   (resolve_confined wOpts c4LinkFs "link-out.txt").2 ["repo"] ["outside", "x.txt"]
     (by decide) (by decide) rfl rfl rfl⟩

/-! ## C5 — deny-list rejection -/

/-- **C5 (amended).** A resolution that reaches the policy stage with a
deny-matching relative path fails with `AccessDenied` — provided the
target is not an existing directory.  When the canonical target exists and
is a directory, the directory rejection fires *first* and the call fails
with `InvalidPath` instead, even if the path also matches a deny rule
(see the counterexample with the denied directory `dist`). -/
theorem resolve_denied (opts : SandboxOptions) (fs : Node) (userPath : String)
    (R rc : List String)
    (h0 : ¬ userPath.data.contains '\x00') (h1 : trimS userPath ≠ "")
    (hroot : rootReal fs opts = some R)
    (hcand : realCand fs (candidateSegs R (trimS userPath)) = some rc)
    (htrav : strictUnder R rc = true)
    (hrel : trimS (joinS '/' (relSegsOf R rc)) ≠ "") :
    (dirCheck fs rc = .ok () →
      isDeniedPath opts (joinS '/' (relSegsOf R rc)) = true →
      resolveInRepo opts fs userPath = .error .accessDenied) ∧
    (∀ es, getNode fs rc = some (.dir es) → existsF fs rc = true →
      resolveInRepo opts fs userPath = .error .invalidPath) := by
  have hresolve : resolveInRepo opts fs userPath =
      (match dirCheck fs rc with
       | .error e => .error e
       | .ok _ =>
         if isDeniedPath opts (joinS '/' (relSegsOf R rc)) then .error .accessDenied
         else .ok { absSegs := rc, relPath := joinS '/' (relSegsOf R rc) }) := by
    simp only [resolveInRepo, if_neg h0, if_neg h1, hroot, hcand, htrav,
      not_true, if_neg hrel, if_false]
  constructor
  · intro hdir hdeny
    rw [hresolve, hdir, if_pos hdeny]
  · intro es hget hex
    have hdir : dirCheck fs rc = .error .invalidPath := by
      unfold dirCheck
      rw [if_pos hex, hget]
    rw [hresolve, hdir]

def c5Fs : Node := wRepo (.cons "dist" (.dir .nil) .nil)

/-- The original C5 is too strong: `"dist"` matches the deny rule for
directory names, but since it exists as a directory the call fails with
`InvalidPath` (directory rejection), not `AccessDenied`. -/
theorem resolve_denied_counterexample :
    isDeniedPath wOpts "dist" = true ∧
    resolveInRepo wOpts c5Fs "dist" = .error .invalidPath ∧
    resolveInRepo wOpts c5Fs "dist" ≠ .error .accessDenied := by
  refine ⟨rfl, rfl, fun hc => ?_⟩
  rw [show resolveInRepo wOpts c5Fs "dist" = .error .invalidPath from rfl] at hc
  simp at hc

def c5EnvFs : Node := wRepo (.cons ".env" (.file "KEY=1") .nil)

theorem resolve_denied_witness :
    resolveInRepo wOpts c5EnvFs ".env" = .error .accessDenied ∧
    resolveInRepo wOpts c5Fs "dist" = .error .invalidPath :=
  ⟨(resolve_denied wOpts c5EnvFs ".env" ["repo"] ["repo", ".env"]
      (by decide) (by decide) rfl rfl rfl (by decide)).1 rfl rfl,
   (resolve_denied wOpts c5Fs "dist" ["repo"] ["repo", "dist"]
      (by decide) (by decide) rfl rfl rfl (by decide)).2 .nil rfl rfl⟩

/-! ## C2 — the read-before-mutate gate -/

theorem subset_addGate (g : List String) (rel : String) : g ⊆ addGate g rel := by
  unfold addGate
  split
  · exact fun _ h => h
  · exact fun x hx => List.mem_append_left _ hx

theorem mem_addGate (g : List String) (rel : String) : rel ∈ addGate g rel := by
  unfold addGate
  split
  · assumption
  · exact List.mem_append_right _ (by simp)

theorem statNode_existsF {fs : Node} {segs : List String} {n : Node}
    (h : statNode fs segs = some n) : existsF fs segs = true := by
  unfold statNode at h
  unfold existsF
  cases hr : realpathF fs segs with
  | none => rw [hr] at h; cases h
  | some r => simp

theorem batchEntryOf_gate_mono (opts : SandboxOptions) (fs : Node)
    (gate : List String) (p : String) :
    gate ⊆ (batchEntryOf opts fs gate p).2 := by
  unfold batchEntryOf
  repeat' split
  all_goals first
    | exact fun x hx => hx
    | exact subset_addGate _ _

theorem readFilesBatchGo_gate_mono (opts : SandboxOptions) (fs : Node) :
    ∀ (ps : List String) (gate : List String),
      gate ⊆ (readFilesBatchGo opts fs ps gate).2 := by
  intro ps
  induction ps with
  | nil => intro gate; exact fun x hx => hx
  | cons p rest ih =>
    intro gate
    exact fun x hx =>
      ih (batchEntryOf opts fs gate p).2 (batchEntryOf_gate_mono opts fs gate p hx)

theorem readFilesBatchGo_gate_mem (opts : SandboxOptions) (fs : Node)
    (p : String) (sp : SafePath) (c : String)
    (hres : resolveInRepo opts fs p = .ok sp)
    (hfile : statNode fs sp.absSegs = some (.file c))
    (hsize : utf8Len c ≤ opts.maxReadBytes) :
    ∀ (ps : List String) (gate : List String), p ∈ ps →
      sp.relPath ∈ (readFilesBatchGo opts fs ps gate).2 := by
  intro ps
  induction ps with
  | nil => intro gate h; cases h
  | cons q rest ih =>
    intro gate hmem
    rcases List.mem_cons.mp hmem with hq | hq
    · subst hq
      have hself : (batchEntryOf opts fs gate p).2 = addGate gate sp.relPath := by
        simp only [batchEntryOf, hres, hfile, if_neg (by omega : ¬ opts.maxReadBytes < utf8Len c)]
      show sp.relPath ∈ (readFilesBatchGo opts fs rest (batchEntryOf opts fs gate p).2).2
      rw [hself]
      exact readFilesBatchGo_gate_mono opts fs rest _ (mem_addGate gate sp.relPath)
    · exact ih _ hq

theorem writeFile_gate (opts : SandboxOptions) (st : AgentState) (p content : String) :
    (writeFile opts st p content).2.readFilesThisRun = st.readFilesThisRun := by
  unfold writeFile
  repeat' split
  all_goals rfl

theorem deleteFile_gate (opts : SandboxOptions) (st : AgentState) (p : String) :
    (deleteFile opts st p).2.readFilesThisRun = st.readFilesThisRun := by
  unfold deleteFile
  repeat' split
  all_goals rfl

theorem applyPatch_gate (opts : SandboxOptions) (st : AgentState) (patch : String) :
    (applyPatch opts st patch).2.readFilesThisRun = st.readFilesThisRun := by
  unfold applyPatch
  repeat' split
  all_goals rfl

theorem readFile_gate_mono (opts : SandboxOptions) (st : AgentState) (p : String) :
    st.readFilesThisRun ⊆ (readFile opts st p).2.readFilesThisRun := by
  unfold readFile
  repeat' split
  all_goals first
    | exact fun x hx => hx
    | exact subset_addGate _ _

/-- **C2 (amended).** Read-before-mutate gate.  For a resolvable path whose
target exists as a regular file and has not been read this session:
`delete_file` fails `ReadRequired`; `write_file` fails `ReadRequired`
*provided the content is within `maxWriteBytes`* (the size check precedes
the gate check, see the counterexample); `apply_patch` whose first parsed
section targets that path fails `ReadRequired`; in each case the state is
unchanged.  After a successful `read_file` of the path the same mutation
calls succeed, `read_files_batch` including the path also marks it read,
and across every dispatched operation the set of read paths only grows. -/
theorem read_gate (opts : SandboxOptions) (st : AgentState) (p : String)
    (sp : SafePath) (c : String)
    (hres : resolveInRepo opts st.fs p = .ok sp)
    (hfile : statNode st.fs sp.absSegs = some (.file c))
    (hunread : sp.relPath ∉ st.readFilesThisRun) :
    (deleteFile opts st p = (.error .readRequiredDelete, st)) ∧
    (∀ content, utf8Len content ≤ opts.maxWriteBytes →
      writeFile opts st p content = (.error (.readRequiredWrite sp.relPath), st)) ∧
    (∀ patch sec rest, trimS patch ≠ "" →
      parseSections patch = .ok (sec :: rest) → sec.relPath = p →
      applyPatch opts st patch = (.error (.readRequiredPatch sp.relPath), st)) ∧
    (∀ r st', readFile opts st p = (.ok r, st') →
      (∀ content, utf8Len content ≤ opts.maxWriteBytes →
        (writeFile opts st' p content).1 = .ok ⟨sp.relPath, utf8Len content⟩) ∧
      (deleteFile opts st' p).1 = .ok ⟨sp.relPath, true, none⟩) ∧
    (utf8Len c ≤ opts.maxReadBytes → ∀ ps, p ∈ ps → ps.length ≤ 50 → ps ≠ [] →
      sp.relPath ∈ (readFilesBatch opts st ps).2.readFilesThisRun) ∧
    (∀ (st₂ : AgentState) (call : Call),
      st₂.readFilesThisRun ⊆ (dispatch opts st₂ call).2.readFilesThisRun) := by
  have hex : existsF st.fs sp.absSegs = true := statNode_existsF hfile
  refine ⟨?_, ?_, ?_, ?_, ?_, ?_⟩
  · simp [deleteFile, hres, hex, hfile, hunread]
  · intro content hsz
    simp [writeFile, hres, hex, hunread, Nat.not_lt.mpr hsz]
  · intro patch sec rest hne hparse hsecp
    have hplan : planSection opts st.fs st.readFilesThisRun sec =
        .error (.readRequiredPatch sp.relPath) := by
      simp [planSection, hsecp, hres, isCurrentFile, hfile, hunread, newContentOf]
    have hps : planSections opts st.fs st.readFilesThisRun (sec :: rest) =
        .error (.readRequiredPatch sp.relPath) := by
      unfold planSections
      rw [hplan]
    simp [applyPatch, hne, hparse, hps]
  · intro r st' hread
    simp only [readFile, hres, hfile] at hread
    split at hread
    · cases hread
    · have hst' : st' = { st with readFilesThisRun := addGate st.readFilesThisRun sp.relPath } := by
        cases hread; rfl
      subst hst'
      constructor
      · intro content hsz
        simp [writeFile, hres, hex, mem_addGate, Nat.not_lt.mpr hsz]
      · simp [deleteFile, hres, hex, hfile, mem_addGate]
  · intro hsz ps hmem hlen hne
    unfold readFilesBatch
    rw [if_neg (by simpa using hne), if_neg (by omega)]
    exact readFilesBatchGo_gate_mem opts st.fs p sp c hres hfile hsz ps _ hmem
  · intro st₂ call
    cases call with
    | read_file q => exact readFile_gate_mono opts st₂ q
    | read_files_batch ps =>
      show st₂.readFilesThisRun ⊆ (readFilesBatch opts st₂ ps).2.readFilesThisRun
      unfold readFilesBatch
      repeat' split
      all_goals first
        | exact fun x hx => hx
        | exact readFilesBatchGo_gate_mono opts st₂.fs ps st₂.readFilesThisRun
    | write_file q cont =>
      intro x hx
      show x ∈ (writeFile opts st₂ q cont).2.readFilesThisRun
      rw [writeFile_gate]
      exact hx
    | delete_file q =>
      intro x hx
      show x ∈ (deleteFile opts st₂ q).2.readFilesThisRun
      rw [deleteFile_gate]
      exact hx
    | apply_patch patch =>
      intro x hx
      show x ∈ (applyPatch opts st₂ patch).2.readFilesThisRun
      rw [applyPatch_gate]
      exact hx
    | _ => exact fun x hx => hx

def c2Fs : Node := wRepo (.cons "a.txt" (.file "hi") .nil)

def c2St : AgentState := ⟨c2Fs, none, []⟩

def c2Sp : SafePath := ⟨["repo", "a.txt"], "a.txt"⟩

/-- A policy with a tiny write limit, to exhibit the check ordering. -/
def c2SmallOpts : SandboxOptions := { wOpts with maxWriteBytes := 2 }

/-- The original C2 is too strong for `write_file`: on an existing, unread
path, a call whose content exceeds `maxWriteBytes` fails `TooLarge`, not
`ReadRequired` — the size check runs before the read gate. -/
theorem read_gate_counterexample :
    statNode c2St.fs ["repo", "a.txt"] = some (.file "hi") ∧
    "a.txt" ∉ c2St.readFilesThisRun ∧
    writeFile c2SmallOpts c2St "a.txt" "xyz" =
      (.error (.tooLargeWrite 3 "a.txt"), c2St) ∧
    Err.tooLargeWrite 3 "a.txt" ≠ Err.readRequiredWrite "a.txt" :=
  ⟨rfl, by decide, rfl, by decide⟩

theorem read_gate_witness :
    resolveInRepo wOpts c2St.fs "a.txt" = .ok c2Sp ∧
    ((deleteFile wOpts c2St "a.txt" = (.error .readRequiredDelete, c2St)) ∧
     (∀ content, utf8Len content ≤ wOpts.maxWriteBytes →
       writeFile wOpts c2St "a.txt" content =
         (.error (.readRequiredWrite c2Sp.relPath), c2St)) ∧
     (∀ patch sec rest, trimS patch ≠ "" →
       parseSections patch = .ok (sec :: rest) → sec.relPath = "a.txt" →
       applyPatch wOpts c2St patch = (.error (.readRequiredPatch c2Sp.relPath), c2St)) ∧
     (∀ r st', readFile wOpts c2St "a.txt" = (.ok r, st') →
       (∀ content, utf8Len content ≤ wOpts.maxWriteBytes →
         (writeFile wOpts st' "a.txt" content).1 = .ok ⟨c2Sp.relPath, utf8Len content⟩) ∧
       (deleteFile wOpts st' "a.txt").1 = .ok ⟨c2Sp.relPath, true, none⟩) ∧
     (utf8Len "hi" ≤ wOpts.maxReadBytes → ∀ ps, "a.txt" ∈ ps → ps.length ≤ 50 → ps ≠ [] →
       c2Sp.relPath ∈ (readFilesBatch wOpts c2St ps).2.readFilesThisRun) ∧
     (∀ (st₂ : AgentState) (call : Call),
       st₂.readFilesThisRun ⊆ (dispatch wOpts st₂ call).2.readFilesThisRun)) :=
  ⟨rfl, read_gate wOpts c2St "a.txt" c2Sp "hi" rfl rfl (by decide)⟩

/-! ## C3 — contextual patch resolution -/

theorem idxOf_prefix {needle : List Char} :
    ∀ {hay : List Char} {i : Nat}, idxOf needle hay = some i →
      needle.isPrefixOf (hay.drop i) = true ∧
        ∀ k, k < i → ¬ needle.isPrefixOf (hay.drop k) = true := by
  intro hay
  induction hay with
  | nil =>
    intro i h
    unfold idxOf at h
    split at h
    · cases h
      exact ⟨by assumption, fun k hk => absurd hk (Nat.not_lt_zero k)⟩
    · cases h
  | cons hd tl ih =>
    intro i h
    unfold idxOf at h
    split at h
    next hpre =>
      cases h
      exact ⟨hpre, fun k hk => absurd hk (Nat.not_lt_zero k)⟩
    next hnpre =>
      cases hj : idxOf needle tl with
      | none => rw [hj] at h; cases h
      | some j =>
        rw [hj] at h
        simp only [Option.map_some'] at h
        cases h
        obtain ⟨h1, h2⟩ := ih hj
        refine ⟨by simpa using h1, ?_⟩
        intro k hk
        cases k with
        | zero => simpa using hnpre
        | succ k' =>
          have := h2 k' (by omega)
          simpa using this

theorem prefix_drop_decomp {needle hay : List Char} {i : Nat}
    (h : needle.isPrefixOf (hay.drop i) = true) :
    hay = hay.take i ++ needle ++ hay.drop (i + needle.length) := by
  obtain ⟨t, ht⟩ := List.isPrefixOf_iff_prefix.mp h
  have hdrop : hay.drop (i + needle.length) = t := by
    rw [← List.drop_drop, ← ht, List.drop_left]
  rw [hdrop, List.append_assoc, ht, List.take_append_drop]

theorem idxOf_le_length {needle : List Char} (_hne : needle ≠ []) :
    ∀ {hay : List Char} {i : Nat}, idxOf needle hay = some i → i ≤ hay.length := by
  intro hay
  induction hay with
  | nil =>
    intro i h
    unfold idxOf at h
    split at h
    next hpre =>
      cases h
      exact Nat.le_refl 0
    · cases h
  | cons hd tl ih =>
    intro i h
    unfold idxOf at h
    split at h
    · cases h; exact Nat.zero_le _
    · cases hj : idxOf needle tl with
      | none => rw [hj] at h; cases h
      | some j =>
        rw [hj] at h
        simp only [Option.map_some'] at h
        cases h
        simpa using Nat.succ_le_succ (ih hj)

theorem countOcc_one_idxOf {hay needle : List Char} (h : countOcc hay needle = 1) :
    ∃ i, idxOf needle hay = some i := by
  unfold countOcc countOccGo at h
  cases hi : idxOf needle hay with
  | none => rw [hi] at h; cases h
  | some i => exact ⟨i, rfl⟩

theorem dollarSubst_id (m pre post : List Char) :
    ∀ repl, ¬ '$' ∈ repl → dollarSubst m pre post repl = repl := by
  intro repl
  induction repl with
  | nil => intro _; rfl
  | cons c rest ih =>
    intro h
    have hc : c ≠ '$' := fun hq => h (hq ▸ List.mem_cons_self _ _)
    have hr : dollarSubst m pre post rest = rest :=
      ih (fun hm => h (List.mem_cons_of_mem _ hm))
    cases rest with
    | nil => rfl
    | cons d rest' =>
      unfold dollarSubst
      rw [if_neg hc, hr]

/-- **C3 (amended).** Contextual patch resolution for an existing, read
file whose re-joined current content differs from the base fragment: the
section counts *non-overlapping* occurrences of `baseFragment + "\n"` in
the raw current content, scanning left to right (so overlapping
occurrences may be undercounted — see the counterexample); when the count
is not exactly 1 the section fails with an error carrying that count;
when it is exactly 1 and the after-block contains no `$` substitution
pattern, the *first* occurrence is replaced by `afterFragment + "\n"` to
produce the planned content. -/
theorem contextual_patch_resolution (opts : SandboxOptions) (fs : Node)
    (gate : List String) (sec : PatchSection) (sp : SafePath) (c : String)
    (hres : resolveInRepo opts fs sec.relPath = .ok sp)
    (hfile : statNode fs sp.absSegs = some (.file c))
    (hgate : sp.relPath ∈ gate)
    (hdiff : joinS '\n' (splitLines c) ≠ joinS '\n' (fragmentsOf sec.lines).1) :
    (countOcc c.data ((joinS '\n' (fragmentsOf sec.lines).1 ++ "\n")).data ≠ 1 →
      planSection opts fs gate sec = .error (.ambiguousFragment sp.relPath
        (countOcc c.data ((joinS '\n' (fragmentsOf sec.lines).1 ++ "\n")).data))) ∧
    (countOcc c.data ((joinS '\n' (fragmentsOf sec.lines).1 ++ "\n")).data = 1 →
      ¬ '$' ∈ ((joinS '\n' (fragmentsOf sec.lines).2 ++ "\n")).data →
      utf8LenCh (replaceFirstJS c.data
        ((joinS '\n' (fragmentsOf sec.lines).1 ++ "\n")).data
        ((joinS '\n' (fragmentsOf sec.lines).2 ++ "\n")).data) ≤ opts.maxWriteBytes →
      ∃ pre post,
        c.data = pre ++ ((joinS '\n' (fragmentsOf sec.lines).1 ++ "\n")).data ++ post ∧
        (∀ k, k < pre.length →
          ¬ ((joinS '\n' (fragmentsOf sec.lines).1 ++ "\n")).data.isPrefixOf
            (c.data.drop k) = true) ∧
        planSection opts fs gate sec = .ok ⟨sp.relPath, sp.absSegs, true, utf8Len c,
          utf8LenCh (pre ++ ((joinS '\n' (fragmentsOf sec.lines).2 ++ "\n")).data ++ post),
          String.mk (pre ++ ((joinS '\n' (fragmentsOf sec.lines).2 ++ "\n")).data ++ post)⟩) := by
  have hcur : isCurrentFile fs sp.absSegs = true := by
    simp [isCurrentFile, hfile]
  have heval : planSection opts fs gate sec =
      (match newContentOf gate sp.relPath true c sec.lines with
       | .error e => .error e
       | .ok newContent =>
         if opts.maxWriteBytes < utf8Len newContent then
           .error (.tooLargePatch (utf8Len newContent) sp.relPath)
         else .ok ⟨sp.relPath, sp.absSegs, true, utf8Len c, utf8Len newContent,
                   newContent⟩) := by
    simp [planSection, hres, hcur, readF, hfile]
  constructor
  · intro hcount
    have hnc : newContentOf gate sp.relPath true c sec.lines =
        .error (.ambiguousFragment sp.relPath
          (countOcc c.data ((joinS '\n' (fragmentsOf sec.lines).1 ++ "\n")).data)) := by
      rw [newContentOf, if_pos rfl, if_neg (not_not_intro hgate), if_neg hdiff,
        if_pos hcount]
    rw [heval, hnc]
  · intro hcount hnd hsz
    obtain ⟨i, hi⟩ := countOcc_one_idxOf hcount
    obtain ⟨hpre, hmin⟩ := idxOf_prefix hi
    have hne : ((joinS '\n' (fragmentsOf sec.lines).1 ++ "\n")).data ≠ [] := by
      show (joinS '\n' (fragmentsOf sec.lines).1).data ++ ['\n'] ≠ []
      simp
    have hile : i ≤ c.data.length := idxOf_le_length hne hi
    have hrepl : replaceFirstJS c.data
        ((joinS '\n' (fragmentsOf sec.lines).1 ++ "\n")).data
        ((joinS '\n' (fragmentsOf sec.lines).2 ++ "\n")).data =
        c.data.take i ++ ((joinS '\n' (fragmentsOf sec.lines).2 ++ "\n")).data ++
          c.data.drop (i + ((joinS '\n' (fragmentsOf sec.lines).1 ++ "\n")).data.length) := by
    -- the replacement substitutes literally since the after-block has no `$`
      simp only [replaceFirstJS, hi]
      rw [dollarSubst_id _ _ _ _ hnd]
    refine ⟨c.data.take i,
      c.data.drop (i + ((joinS '\n' (fragmentsOf sec.lines).1 ++ "\n")).data.length),
      prefix_drop_decomp hpre, ?_, ?_⟩
    · intro k hk
      exact hmin k (by rwa [List.length_take, Nat.min_eq_left hile] at hk)
    · have hnc : newContentOf gate sp.relPath true c sec.lines =
          .ok (String.mk (c.data.take i ++
            ((joinS '\n' (fragmentsOf sec.lines).2 ++ "\n")).data ++
            c.data.drop (i + ((joinS '\n' (fragmentsOf sec.lines).1 ++ "\n")).data.length))) := by
        rw [newContentOf, if_pos rfl, if_neg (not_not_intro hgate), if_neg hdiff,
          if_neg (by omega), hrepl]
      rw [heval]
      simp only [hnc]
      have hszle : ¬ opts.maxWriteBytes < utf8Len (String.mk (c.data.take i ++
          ((joinS '\n' (fragmentsOf sec.lines).2 ++ "\n")).data ++
          c.data.drop (i + ((joinS '\n' (fragmentsOf sec.lines).1 ++ "\n")).data.length))) := by
        apply Nat.not_lt.mpr
        have := hsz
        rw [hrepl] at this
        exact this
      rw [if_neg hszle]
      rfl

def c3Fs : Node := wRepo (.cons "a.txt" (.file "a\na\na\n") .nil)

def c3St : AgentState := ⟨c3Fs, none, ["a.txt"]⟩

/-- A patch whose base fragment `"a\na"` occurs at two (overlapping)
substring positions of `"a\na\na\n"`. -/
def c3Patch : String := "--- a/a.txt\n+++ b/a.txt\n-a\n-a\n+X"

/-- The original C3 is refuted by overlapping occurrences: the base block
`"a\na\n"` occurs as a substring of `"a\na\na\n"` at two positions, yet
the non-overlapping scan counts 1, so the section does not fail — it
rewrites the file to `"X\na\n"`. -/
theorem contextual_patch_counterexample :
    substringOccurrenceCount "a\na\na\n" "a\na\n" = 2 ∧
    countOcc "a\na\na\n".data "a\na\n".data = 1 ∧
    (applyPatch wOpts c3St c3Patch).1 = .ok ⟨[⟨"a.txt", true, 6, 4, "modified"⟩]⟩ ∧
    readF (applyPatch wOpts c3St c3Patch).2.fs ["repo", "a.txt"] = some "X\na\n" :=
  ⟨by decide, by decide, rfl, rfl⟩

def c3WSec : PatchSection := ⟨"ctx.txt", ["-two", "+TWO"]⟩

def c3WFs : Node := wRepo (.cons "ctx.txt" (.file "one\ntwo\nthree\n") .nil)

theorem contextual_patch_resolution_witness :
    (∃ pre post,
      "one\ntwo\nthree\n".data =
        pre ++ ((joinS '\n' (fragmentsOf c3WSec.lines).1 ++ "\n")).data ++ post ∧
      (∀ k, k < pre.length →
        ¬ ((joinS '\n' (fragmentsOf c3WSec.lines).1 ++ "\n")).data.isPrefixOf
          ("one\ntwo\nthree\n".data.drop k) = true) ∧
      planSection wOpts c3WFs ["ctx.txt"] c3WSec = .ok ⟨"ctx.txt", ["repo", "ctx.txt"],
        true, utf8Len "one\ntwo\nthree\n",
        utf8LenCh (pre ++ ((joinS '\n' (fragmentsOf c3WSec.lines).2 ++ "\n")).data ++ post),
        String.mk (pre ++ ((joinS '\n' (fragmentsOf c3WSec.lines).2 ++ "\n")).data ++ post)⟩) :=
  (contextual_patch_resolution wOpts c3WFs ["ctx.txt"] c3WSec
      ⟨["repo", "ctx.txt"], "ctx.txt"⟩ "one\ntwo\nthree\n"
      rfl rfl (by decide) (by decide)).2 (by decide) (by decide) (by decide)

/-! ## C9 — comparisons against content-less baseline entries -/

theorem changedModGo_cons_cases (opts : SandboxOptions) (fs : Node) (b : Baseline)
    (filt : String → Bool) (keys : List String) (q : String) (rest : List String) :
    changedModGo opts fs b filt keys (q :: rest) =
      changedModGo opts fs b filt keys rest ∨
    changedModGo opts fs b filt keys (q :: rest) =
      q :: changedModGo opts fs b filt keys rest := by
  simp only [changedModGo]
  repeat' split
  all_goals simp

theorem changedModGo_cons_self (opts : SandboxOptions) (fs : Node) (b : Baseline)
    (filt : String → Bool) (keys : List String) (p : String) (rest : List String)
    (entry : BaselineEntry) (n : Node)
    (hlook : lookupA b.files p = some entry)
    (hnone : entry.content = none)
    (hstat : statNode fs (normAbs (splitPath opts.repoRoot ++ splitPath p)) = some n)
    (hsz : nodeSize n = entry.bytes) :
    changedModGo opts fs b filt keys (p :: rest) =
      changedModGo opts fs b filt keys rest := by
  simp only [changedModGo]
  by_cases hk : keys.contains p = true
  · by_cases hf : filt p = true
    · simp only [hk, hf, hstat, hlook, hsz, hnone]
      simp
    · simp [hf]
  · have hnk : p ∉ keys := by simpa using hk
    simp [hnk]

theorem changedModGo_not_mem (opts : SandboxOptions) (fs : Node) (b : Baseline)
    (filt : String → Bool) (keys : List String) (p : String)
    (entry : BaselineEntry) (n : Node)
    (hlook : lookupA b.files p = some entry)
    (hnone : entry.content = none)
    (hstat : statNode fs (normAbs (splitPath opts.repoRoot ++ splitPath p)) = some n)
    (hsz : nodeSize n = entry.bytes) :
    ∀ l, p ∉ changedModGo opts fs b filt keys l := by
  intro l
  induction l with
  | nil => simp [changedModGo]
  | cons q rest ih =>
    by_cases hq : q = p
    · subst hq
      rw [changedModGo_cons_self opts fs b filt keys q rest entry n hlook hnone hstat hsz]
      exact ih
    · rcases changedModGo_cons_cases opts fs b filt keys q rest with hE | hE
      · rw [hE]; exact ih
      · rw [hE]
        intro hmem
        rcases List.mem_cons.mp hmem with h | h
        · exact hq h.symm
        · exact ih h

/-- **C9 (amended).** Comparisons against baseline entries captured without
content degrade to byte-length-only, with different surfacing per
operation: `diff_file_against_original` reports them with the explanatory
"compared by size only" note (never silently), but `list_changed_files`
performs the same degradation *silently* — a file whose on-disk size
equals the baseline byte count is omitted from `modified`, and its result
carries no note (the result shape has none). -/
theorem null_content_baseline_degrades :
    (∀ (opts : SandboxOptions) (st : AgentState) (b : Baseline)
       (pre : Option String) (lim : Option Nat) (res : ChangedResult)
       (p : String) (entry : BaselineEntry) (n : Node),
      loadBaseline st = .ok b →
      lookupA b.files p = some entry → entry.content = none →
      statNode st.fs (normAbs (splitPath opts.repoRoot ++ splitPath p)) = some n →
      nodeSize n = entry.bytes →
      listChangedFiles opts st pre lim = .ok res →
      p ∉ res.modified) ∧
    (∀ (opts : SandboxOptions) (st : AgentState) (b : Baseline) (userPath : String)
       (sp : SafePath) (entry : BaselineEntry) (cc : String) (ml : Option Nat),
      resolveInRepo opts st.fs userPath = .ok sp →
      loadBaseline st = .ok b →
      lookupA b.files sp.relPath = some entry → entry.content = none →
      statNode st.fs sp.absSegs = some (.file cc) →
      diffFileAgainstOriginal opts st userPath ml = .ok
        ⟨sp.relPath, if utf8Len cc ≠ entry.bytes then "modified" else "unchanged",
         ⟨entry.bytes, utf8Len cc, 0, 0⟩, none,
         some "Original file too large for content diff; compared by size only."⟩) := by
  constructor
  · intro opts st b pre lim res p entry n hb hlook hnone hstat hsz hres
    unfold listChangedFiles at hres
    rw [hb] at hres
    simp only at hres
    cases hres
    intro hmem
    exact changedModGo_not_mem opts st.fs b _ _ p entry n hlook hnone hstat hsz _
      (List.mem_of_mem_take hmem)
  · intro opts st b userPath sp entry cc ml hres hb hlook hnone hfile
    have hcur : isCurrentFile st.fs sp.absSegs = true := by
      simp [isCurrentFile, hfile]
    simp [diffFileAgainstOriginal, hres, hb, hlook, hcur, hfile, hnone, nodeSize]

def c9Bl : Baseline := ⟨"t0", 400000, [("big.txt", ⟨2, none⟩)]⟩

def c9Fs : Node := wRepo (.cons "big.txt" (.file "zz") .nil)

def c9St : AgentState := ⟨c9Fs, some c9Bl, []⟩

/-- The original C9 is refuted on `list_changed_files`: the baseline entry
for `big.txt` has null content, the on-disk size equals the recorded byte
count, and the call omits the file from `modified` — while its result
(`{baseline_files, current_files, added, deleted, modified}`) carries no
note of the degraded comparison. -/
theorem null_content_baseline_counterexample :
    lookupA c9Bl.files "big.txt" = some ⟨2, none⟩ ∧
    readF c9St.fs ["repo", "big.txt"] = some "zz" ∧
    listChangedFiles wOpts c9St none none = .ok ⟨1, 1, [], [], []⟩ :=
  ⟨rfl, rfl, rfl⟩

theorem null_content_baseline_degrades_witness :
    ("big.txt" ∉ (⟨1, 1, [], [], []⟩ : ChangedResult).modified) ∧
    diffFileAgainstOriginal wOpts c9St "big.txt" none = .ok
      ⟨"big.txt", if utf8Len "zz" ≠ (2 : Nat) then "modified" else "unchanged",
       ⟨2, utf8Len "zz", 0, 0⟩, none,
       some "Original file too large for content diff; compared by size only."⟩ :=
  ⟨null_content_baseline_degrades.1 wOpts c9St c9Bl none none ⟨1, 1, [], [], []⟩
     "big.txt" ⟨2, none⟩ (.file "zz") rfl rfl rfl rfl rfl rfl,
   null_content_baseline_degrades.2 wOpts c9St c9Bl "big.txt"
     ⟨["repo", "big.txt"], "big.txt"⟩ ⟨2, none⟩ "zz" none rfl rfl rfl rfl rfl⟩

/-! ## C8 — the diff line-budget fallback -/

theorem utf8LenCh_replicate (c : Char) :
    ∀ n, utf8LenCh (List.replicate n c) = n * charUtf8Size c := by
  intro n
  induction n with
  | zero => simp [utf8LenCh]
  | succ m ih =>
    rw [List.replicate_succ]
    show charUtf8Size c + utf8LenCh (List.replicate m c) = _
    rw [ih]
    ring

theorem splitLinesCh_replicate_nl :
    ∀ n, splitLinesCh (List.replicate n '\n') = List.replicate (n + 1) [] := by
  intro n
  induction n with
  | zero => rfl
  | succ m ih =>
    rw [List.replicate_succ]
    show [] :: splitLinesCh (List.replicate m '\n') = _
    rw [ih]
    rfl

theorem diffAtomsF_nil_left :
    ∀ (l : List String) (fuel : Nat), l.length ≤ fuel →
      diffAtomsF fuel [] l = l.map (fun s => (DiffType.add, s)) := by
  intro l
  induction l with
  | nil =>
    intro fuel _
    cases fuel <;> rfl
  | cons a as ih =>
    intro fuel hf
    cases fuel with
    | zero => simp at hf
    | succ f =>
      show (DiffType.add, a) :: diffAtomsF f [] as = _
      rw [ih f (by simpa using hf)]
      rfl

/-- **C8 (amended).** The line-budget fallback applies to the two-sided
content comparisons: when the baseline entry still has content, the
current file is readable, and the two line counts sum to more than
10,000, `diff_file_against_original` skips the LCS walk — the status is
decided solely from the UTF-8 byte lengths and SHA-256 hashes of the two
sides, the summary reports zero added/removed lines, and the diff body is
exactly the two header lines plus the single explanatory marker line;
`diff_file_against_current` over budget likewise emits only the marker
header.  (The one-sided `added`/`deleted` branches of
`diff_file_against_original` run the line diff regardless of the budget —
see the counterexample.) -/
theorem diff_line_budget_fallback (opts : SandboxOptions) (st : AgentState)
    (userPath : String) (sp : SafePath) (b : Baseline) (bBytes : Nat)
    (bc cc : String) (ml : Option Nat)
    (hres : resolveInRepo opts st.fs userPath = .ok sp)
    (hb : loadBaseline st = .ok b)
    (hlook : lookupA b.files sp.relPath = some ⟨bBytes, some bc⟩)
    (hfile : statNode st.fs sp.absSegs = some (.file cc))
    (hsize : utf8Len cc ≤ opts.maxReadBytes) :
    (10000 < (splitLines bc).length + (splitLines cc).length →
      diffFileAgainstOriginal opts st userPath ml = .ok
        ⟨sp.relPath,
         if utf8Len bc ≠ utf8Len cc ∨ sha256Hex bc ≠ sha256Hex cc then
           "modified" else "unchanged",
         ⟨utf8Len bc, utf8Len cc, 0, 0⟩,
         some (lineLimitHeader sp.relPath
           ((splitLines bc).length + (splitLines cc).length)),
         some ("Diff omitted due to line limit. before_bytes=" ++
           toString (utf8Len bc) ++ ", after_bytes=" ++ toString (utf8Len cc) ++
           ", before_sha256=" ++ sha256Hex bc ++ ", after_sha256=" ++
           sha256Hex cc)⟩) ∧
    (∀ proposed, 10000 < (splitLines cc).length + (splitLines proposed).length →
      diffFileAgainstCurrent opts st userPath proposed ml = .ok
        ⟨sp.relPath, lineLimitHeader sp.relPath
          ((splitLines cc).length + (splitLines proposed).length)⟩) := by
  have hcur : isCurrentFile st.fs sp.absSegs = true := by
    simp [isCurrentFile, hfile]
  constructor
  · intro hbudget
    simp [diffFileAgainstOriginal, hres, hb, hlook, hcur, hfile, nodeSize,
      Nat.not_lt.mpr hsize, readF, hbudget]
  · intro proposed hbudget
    have hsafe : safeRead st.fs sp.absSegs opts.maxReadBytes = .ok cc := by
      simp [safeRead, hfile, nodeSize, Nat.not_lt.mpr hsize, readF]
    simp [diffFileAgainstCurrent, hres, hcur, hsafe, hbudget]

/-- `10001` newline characters: `10002` lines after `split(/\r?\n/)`. -/
def c8Big : String := String.mk (List.replicate 10001 '\n')

theorem c8Big_lines : splitLines c8Big = List.replicate 10002 "" := by
  show (splitLinesCh (List.replicate 10001 '\n')).map String.mk = _
  rw [splitLinesCh_replicate_nl, List.map_replicate]

theorem c8Big_len : utf8Len c8Big = 10001 := by
  show utf8LenCh (List.replicate 10001 '\n') = 10001
  rw [utf8LenCh_replicate]
  rfl

def c8Fs : Node := wRepo (.cons "big.txt" (.file c8Big) .nil)

def c8Bl : Baseline := ⟨"t0", 400000, [("big.txt", ⟨0, some ""⟩)]⟩

def c8St : AgentState := ⟨c8Fs, some c8Bl, []⟩

/-- The same tree with a baseline that lacks the file (the `added`
branch). -/
def c8AddSt : AgentState := ⟨c8Fs, some ⟨"t0", 400000, []⟩, []⟩

theorem diff_line_budget_fallback_witness :
    10000 < (splitLines "").length + (splitLines c8Big).length ∧
    diffFileAgainstOriginal wOpts c8St "big.txt" none = .ok
      ⟨"big.txt",
       if utf8Len "" ≠ utf8Len c8Big ∨ sha256Hex "" ≠ sha256Hex c8Big then
         "modified" else "unchanged",
       ⟨utf8Len "", utf8Len c8Big, 0, 0⟩,
       some (lineLimitHeader "big.txt"
         ((splitLines "").length + (splitLines c8Big).length)),
       some ("Diff omitted due to line limit. before_bytes=" ++
         toString (utf8Len "") ++ ", after_bytes=" ++ toString (utf8Len c8Big) ++
         ", before_sha256=" ++ sha256Hex "" ++ ", after_sha256=" ++
         sha256Hex c8Big)⟩ ∧
    diffFileAgainstCurrent wOpts c8St "big.txt" "" none = .ok
      ⟨"big.txt", lineLimitHeader "big.txt"
        ((splitLines c8Big).length + (splitLines "").length)⟩ := by
  have hbudget : 10000 < (splitLines "").length + (splitLines c8Big).length := by
    have h1 : (splitLines "").length = 1 := rfl
    rw [c8Big_lines, h1, List.length_replicate]
    omega
  have hsize : utf8Len c8Big ≤ wOpts.maxReadBytes := by
    rw [c8Big_len]
    show 10001 ≤ 400000
    omega
  have h := diff_line_budget_fallback wOpts c8St "big.txt"
    ⟨["repo", "big.txt"], "big.txt"⟩ c8Bl 0 "" c8Big none rfl rfl rfl rfl hsize
  refine ⟨hbudget, h.1 hbudget, h.2 "" ?_⟩
  have h1 : (splitLines "").length = 1 := rfl
  rw [c8Big_lines, h1, List.length_replicate]
  omega

/-- Evaluation of the `added` branch of `diff_file_against_original`
(no baseline entry, current file readable): the line diff runs and is
rendered whatever the file's line count. -/
theorem dfao_added_eval (opts : SandboxOptions) (st : AgentState)
    (userPath : String) (sp : SafePath) (bl : Baseline) (cc : String)
    (ml : Option Nat)
    (hres : resolveInRepo opts st.fs userPath = .ok sp)
    (hb : loadBaseline st = .ok bl)
    (hlook : lookupA bl.files sp.relPath = none)
    (hfile : statNode st.fs sp.absSegs = some (.file cc))
    (hsize : utf8Len cc ≤ opts.maxReadBytes) :
    diffFileAgainstOriginal opts st userPath ml = .ok
      ⟨sp.relPath, "added", ⟨0, utf8Len cc, (splitLines cc).length, 0⟩,
       some (buildUnifiedDiff sp.relPath [] (splitLines cc)
         (clamp (ml.getD 2000) 1 10000)), none⟩ := by
  have hcur : isCurrentFile st.fs sp.absSegs = true := by
    simp [isCurrentFile, hfile]
  have hsafe : safeRead st.fs sp.absSegs opts.maxReadBytes = .ok cc := by
    simp [safeRead, hfile, nodeSize, Nat.not_lt.mpr hsize, readF]
  simp [diffFileAgainstOriginal, hres, hb, hlook, hcur, hsafe]

/-- The original C8 quantifies over *every* pair of inputs, but the
one-sided `added` branch of `diff_file_against_original` runs the line
diff however large the file is: with no baseline entry and a current file
of 10,002 lines (line-count sum 10,002 > 10,000), the call reports
`added` with 10,002 added lines and a diff body of truncated `+` lines —
not a hash-based status with a marker-only body. -/
theorem diff_line_budget_counterexample :
    10000 < ([] : List String).length + (splitLines c8Big).length ∧
    diffFileAgainstOriginal wOpts c8AddSt "big.txt" (some 1) = .ok
      ⟨"big.txt", "added", ⟨0, 10001, 10002, 0⟩,
       some "--- a/big.txt\n+++ b/big.txt\n+", none⟩ ∧
    (some "--- a/big.txt\n+++ b/big.txt\n+" ≠
      some (lineLimitHeader "big.txt" 10002)) := by
  refine ⟨?_, ?_, by decide⟩
  · rw [c8Big_lines, List.length_replicate]
    simp only [List.length_nil]
    omega
  · have hdl : diffLines [] (List.replicate 10002 "") =
        [⟨.add, List.replicate 10002 ""⟩] := by
      unfold diffLines diffAtoms
      rw [diffAtomsF_nil_left _ _
        (by rw [List.length_replicate]; simp only [List.length_nil]; omega)]
      rw [show List.replicate 10002 "" = "" :: List.replicate 10001 "" from rfl]
      exact coalesce_uniform .add "" (List.replicate 10001 "")
    have hbuild : buildUnifiedDiff "big.txt" [] (List.replicate 10002 "") 1 =
        "--- a/big.txt\n+++ b/big.txt\n+" := by
      unfold buildUnifiedDiff buildUnifiedDiffOps
      rw [hdl]
      rfl
    have hsize : utf8Len c8Big ≤ wOpts.maxReadBytes := by
      rw [c8Big_len]
      show 10001 ≤ 400000
      omega
    have heq := dfao_added_eval wOpts c8AddSt "big.txt"
      ⟨["repo", "big.txt"], "big.txt"⟩ ⟨"t0", 400000, []⟩ c8Big (some 1)
      rfl rfl rfl rfl hsize
    rw [c8Big_lines, c8Big_len, List.length_replicate,
      show clamp ((some 1).getD 2000) 1 10000 = 1 from rfl, hbuild] at heq
    exact heq


/-! ## C6 — symlinks are never enumerated or scanned -/

theorem string_mk_data (s : String) : String.mk s.data = s := rfl

theorem map_data_mk (l : List String) : (l.map String.data).map String.mk = l := by
  induction l with
  | nil => rfl
  | cons s rest ih => simp only [List.map_cons, string_mk_data, ih]

theorem splitChOn_no_sep (sep : Char) :
    ∀ xs : List Char, sep ∉ xs → splitChOn sep xs = [xs] := by
  intro xs
  induction xs with
  | nil => intro _; rfl
  | cons c rest ih =>
    intro h
    have hc : ¬ c = sep := fun hh => h (hh ▸ List.mem_cons_self c rest)
    simp only [splitChOn, ih (fun hm => h (List.mem_cons_of_mem _ hm)), if_neg hc]

theorem splitChOn_append (sep : Char) :
    ∀ xs ys : List Char, sep ∉ xs →
      splitChOn sep (xs ++ sep :: ys) = xs :: splitChOn sep ys := by
  intro xs
  induction xs with
  | nil => intro ys _; simp [splitChOn]
  | cons c rest ih =>
    intro ys h
    have hc : ¬ c = sep := fun hh => h (hh ▸ List.mem_cons_self c rest)
    simp only [List.cons_append, splitChOn, List.append_eq,
      ih ys (fun hm => h (List.mem_cons_of_mem _ hm)), if_neg hc]

theorem splitChOn_joinCh (sep : Char) :
    ∀ (ls : List (List Char)) (l : List Char), (∀ x ∈ l :: ls, sep ∉ x) →
      splitChOn sep (joinCh sep (l :: ls)) = l :: ls := by
  intro ls
  induction ls with
  | nil =>
    intro l h
    exact splitChOn_no_sep sep l (h l (List.mem_cons_self _ _))
  | cons l2 ls' ih =>
    intro l h
    have hj : joinCh sep (l :: l2 :: ls') = l ++ sep :: joinCh sep (l2 :: ls') := rfl
    rw [hj, splitChOn_append sep l _ (h l (List.mem_cons_self _ _)),
      ih l2 (fun x hx => h x (List.mem_cons_of_mem _ hx))]

theorem joinS_inj (a b : List String)
    (ha : ∀ s ∈ a, ('/' : Char) ∉ s.data) (hb : ∀ s ∈ b, ('/' : Char) ∉ s.data)
    (hna : a ≠ []) (hnb : b ≠ []) (h : joinS '/' a = joinS '/' b) : a = b := by
  obtain ⟨a0, as, rfl⟩ := List.exists_cons_of_ne_nil hna
  obtain ⟨b0, bs, rfl⟩ := List.exists_cons_of_ne_nil hnb
  have hdata : joinCh '/' (a0.data :: as.map String.data) =
      joinCh '/' (b0.data :: bs.map String.data) := by
    have h2 := congrArg String.data h
    simpa [joinS] using h2
  have hmemA : ∀ x ∈ a0.data :: as.map String.data, ('/' : Char) ∉ x := by
    intro x hx
    rcases List.mem_cons.mp hx with h1 | h1
    · exact h1 ▸ ha a0 (List.mem_cons_self _ _)
    · obtain ⟨s, hs, rfl⟩ := List.mem_map.mp h1
      exact ha s (List.mem_cons_of_mem _ hs)
  have hmemB : ∀ x ∈ b0.data :: bs.map String.data, ('/' : Char) ∉ x := by
    intro x hx
    rcases List.mem_cons.mp hx with h1 | h1
    · exact h1 ▸ hb b0 (List.mem_cons_self _ _)
    · obtain ⟨s, hs, rfl⟩ := List.mem_map.mp h1
      exact hb s (List.mem_cons_of_mem _ hs)
  have hsplit : a0.data :: as.map String.data = b0.data :: bs.map String.data := by
    rw [← splitChOn_joinCh '/' (as.map String.data) a0.data hmemA,
        ← splitChOn_joinCh '/' (bs.map String.data) b0.data hmemB, hdata]
  injection hsplit with h0 hrest
  have ha0 : a0 = b0 := by rw [← string_mk_data a0, ← string_mk_data b0, h0]
  have has : as = bs := by
    rw [← map_data_mk as, ← map_data_mk bs, hrest]
  rw [ha0, has]

theorem wfName_no_slash (s : String) (h : wfName s = true) :
    ('/' : Char) ∉ s.data := by
  simp only [wfName, Bool.and_eq_true, decide_eq_true_eq] at h
  intro hm
  exact absurd (List.elem_iff.mpr hm) (by simpa [List.contains] using h.2.2.2.1)

theorem mem_namesOfE : ∀ (es : Entries) (name : String) (child : Node),
    (name, child) ∈ entriesList es → name ∈ namesOfE es
  | .nil, name, child, h => by simp [entriesList] at h
  | .cons n node rest, name, child, h => by
    simp only [entriesList, List.mem_cons] at h
    simp only [namesOfE, List.mem_cons]
    rcases h with h | h
    · left; exact congrArg Prod.fst h
    · right; exact mem_namesOfE rest name child h

theorem lookupE_of_mem : ∀ (es : Entries), (namesOfE es).Nodup →
    ∀ name child, (name, child) ∈ entriesList es → lookupE name es = some child
  | .nil, _, name, child, h => by simp [entriesList] at h
  | .cons n node rest, hnd, name, child, h => by
    simp only [namesOfE, List.nodup_cons] at hnd
    simp only [entriesList, List.mem_cons] at h
    rcases h with h | h
    · have h1 : name = n := congrArg Prod.fst h
      have h2 : child = node := congrArg Prod.snd h
      subst h1; subst h2
      simp [lookupE]
    · have hne : ¬ n = name := by
        intro he; exact hnd.1 (he ▸ mem_namesOfE rest name child h)
      simp only [lookupE, if_neg hne]
      exact lookupE_of_mem rest hnd.2 name child h

theorem wf_dir_nodup {es : Entries} (h : Node.wf (.dir es) = true) :
    (namesOfE es).Nodup := by
  simp only [Node.wf, Bool.and_eq_true, decide_eq_true_eq] at h
  exact h.1

theorem wf_dir_entries {es : Entries} (h : Node.wf (.dir es) = true) :
    Entries.wf es = true := by
  simp only [Node.wf, Bool.and_eq_true, decide_eq_true_eq] at h
  exact h.2

theorem wf_cons_name {n : String} {node : Node} {rest : Entries}
    (h : Entries.wf (.cons n node rest) = true) : wfName n = true := by
  simp only [Entries.wf, Bool.and_eq_true, decide_eq_true_eq] at h
  exact h.1

theorem wf_cons_node {n : String} {node : Node} {rest : Entries}
    (h : Entries.wf (.cons n node rest) = true) : Node.wf node = true := by
  simp only [Entries.wf, Bool.and_eq_true, decide_eq_true_eq] at h
  exact h.2.1

theorem wf_cons_rest {n : String} {node : Node} {rest : Entries}
    (h : Entries.wf (.cons n node rest) = true) : Entries.wf rest = true := by
  simp only [Entries.wf, Bool.and_eq_true, decide_eq_true_eq] at h
  exact h.2.2

theorem wf_lookupE : ∀ (es : Entries), Entries.wf es = true →
    ∀ name child, lookupE name es = some child →
      wfName name = true ∧ Node.wf child = true
  | .nil, _, name, child, h => by simp [lookupE] at h
  | .cons n node rest, hwf, name, child, h => by
    simp only [lookupE] at h
    by_cases he : n = name
    · rw [if_pos he] at h
      injection h with h
      subst h
      exact ⟨he ▸ wf_cons_name hwf, wf_cons_node hwf⟩
    · rw [if_neg he] at h
      exact wf_lookupE rest (wf_cons_rest hwf) name child h

theorem getNode_append (p q : List String) : ∀ fs : Node,
    getNode fs (p ++ q) = (getNode fs p).bind (fun n => getNode n q) := by
  induction p with
  | nil => intro fs; rfl
  | cons seg p' ih =>
    intro fs
    cases fs with
    | file c => rfl
    | link t => rfl
    | dir es =>
      show getNode (Node.dir es) (seg :: (p' ++ q)) = _
      simp only [getNode]
      cases lookupE seg es with
      | none => rfl
      | some child => exact ih child

theorem wf_getNode : ∀ (p : List String) (fs n : Node),
    Node.wf fs = true → getNode fs p = some n → Node.wf n = true := by
  intro p
  induction p with
  | nil =>
    intro fs n hwf h
    simp only [getNode] at h
    injection h with h
    subst h
    exact hwf
  | cons seg p' ih =>
    intro fs n hwf h
    cases fs with
    | file c => simp [getNode] at h
    | link t => simp [getNode] at h
    | dir es =>
      simp only [getNode] at h
      cases hl : lookupE seg es with
      | none => rw [hl] at h; cases h
      | some child =>
        rw [hl] at h
        exact ih child n
          (wf_lookupE es (wf_dir_entries hwf) seg child hl).2 h

theorem mem_insertSorted (x a : String) : ∀ l : List String,
    a ∈ insertSorted x l ↔ a = x ∨ a ∈ l
  | [] => by simp [insertSorted]
  | y :: rest => by
    simp only [insertSorted]
    cases hb : strLt x y with
    | true => simp [List.mem_cons]
    | false =>
      simp only [Bool.false_eq_true, if_false, List.mem_cons,
        mem_insertSorted x a rest]
      tauto

theorem mem_sortStrings (a : String) : ∀ l : List String,
    a ∈ sortStrings l ↔ a ∈ l := by
  intro l
  induction l with
  | nil => simp [sortStrings]
  | cons x rest ih => simp [sortStrings, mem_insertSorted, ih]

theorem searchFilesGo_nil (opts : SandboxOptions) (fs : Node) (query : String)
    (limitMatches : Nat) : ∀ l : List String,
    (∀ rel ∈ l, ∀ sp, resolveInRepo opts fs rel = .ok sp →
      ∀ c, statNode fs sp.absSegs = some (.file c) → includesS c query = false) →
    searchFilesGo opts fs query limitMatches l [] = []
  | [], _ => rfl
  | rel :: rest, h => by
    have hrest : ∀ r ∈ rest, ∀ sp, resolveInRepo opts fs r = .ok sp →
        ∀ c, statNode fs sp.absSegs = some (.file c) → includesS c query = false :=
      fun r hr => h r (List.mem_cons_of_mem _ hr)
    have ih := searchFilesGo_nil opts fs query limitMatches rest hrest
    simp only [searchFilesGo]
    split
    · rfl
    split
    · exact ih
    rename_i sp hres
    split
    · rename_i c hstat
      have hinc : includesS c query = false :=
        h rel (List.mem_cons_self _ _) sp hres c hstat
      split
      · exact ih
      split
      · exact ih
      · simp_all
    · exact ih

theorem walkEntries_sound (fs : Node) (opts : SandboxOptions)
    (repoAbs repoReal : List String) (maxFiles : Nat) (hwf : Node.wf fs = true) :
    ∀ (fuel : Nat) (entries : List (String × Node)) (relDir : List String)
      (acc : List String),
    (∀ s ∈ relDir, wfName s = true) →
    (∀ name child, (name, child) ∈ entries → wfName name = true ∧
      getNode fs (repoAbs ++ (relDir ++ [name])) = some child) →
    (∀ r ∈ acc, ∃ segs c, r = joinS '/' segs ∧ segs ≠ [] ∧
      (∀ s ∈ segs, wfName s = true) ∧
      getNode fs (repoAbs ++ segs) = some (.file c)) →
    ∀ r ∈ walkEntries fs opts repoAbs repoReal maxFiles fuel entries relDir acc,
      ∃ segs c, r = joinS '/' segs ∧ segs ≠ [] ∧
        (∀ s ∈ segs, wfName s = true) ∧
        getNode fs (repoAbs ++ segs) = some (.file c) := by
  intro fuel
  induction fuel with
  | zero =>
    intro entries relDir acc _ _ hacc r hr
    simp only [walkEntries] at hr
    exact hacc r hr
  | succ fuel ih =>
    intro entries relDir acc hdir hent hacc r hr
    cases entries with
    | nil =>
      simp only [walkEntries] at hr
      exact hacc r hr
    | cons hd rest =>
      obtain ⟨name, child⟩ := hd
      have hrest : ∀ n c, (n, c) ∈ rest → wfName n = true ∧
          getNode fs (repoAbs ++ (relDir ++ [n])) = some c :=
        fun n c hm => hent n c (List.mem_cons_of_mem _ hm)
      cases child with
      | link t =>
        rw [show walkEntries fs opts repoAbs repoReal maxFiles (fuel + 1)
            ((name, Node.link t) :: rest) relDir acc =
          (if maxFiles ≤ acc.length then acc
           else if joinS '/' (relDir ++ [name]) = "" ∨
               isDeniedPath opts (joinS '/' (relDir ++ [name])) then
             walkEntries fs opts repoAbs repoReal maxFiles fuel rest relDir acc
           else
             walkEntries fs opts repoAbs repoReal maxFiles fuel rest relDir acc)
          from rfl] at hr
        by_cases h1 : maxFiles ≤ acc.length
        · rw [if_pos h1] at hr
          exact hacc r hr
        · rw [if_neg h1, ite_self] at hr
          exact ih rest relDir acc hdir hrest hacc r hr
      | file content =>
        rw [show walkEntries fs opts repoAbs repoReal maxFiles (fuel + 1)
            ((name, Node.file content) :: rest) relDir acc =
          (if maxFiles ≤ acc.length then acc
           else if joinS '/' (relDir ++ [name]) = "" ∨
               isDeniedPath opts (joinS '/' (relDir ++ [name])) then
             walkEntries fs opts repoAbs repoReal maxFiles fuel rest relDir acc
           else
             walkEntries fs opts repoAbs repoReal maxFiles fuel rest relDir
               (acc ++ [joinS '/' (relDir ++ [name])]))
          from rfl] at hr
        by_cases h1 : maxFiles ≤ acc.length
        · rw [if_pos h1] at hr
          exact hacc r hr
        rw [if_neg h1] at hr
        by_cases h2 : joinS '/' (relDir ++ [name]) = "" ∨
            isDeniedPath opts (joinS '/' (relDir ++ [name]))
        · rw [if_pos h2] at hr
          exact ih rest relDir acc hdir hrest hacc r hr
        rw [if_neg h2] at hr
        refine ih rest relDir (acc ++ [joinS '/' (relDir ++ [name])])
          hdir hrest ?_ r hr
        intro r' hr'
        rcases List.mem_append.mp hr' with h3 | h3
        · exact hacc r' h3
        · have hr2 : r' = joinS '/' (relDir ++ [name]) := by simpa using h3
          subst hr2
          obtain ⟨hn, hg⟩ := hent name (.file content) (List.mem_cons_self _ _)
          refine ⟨relDir ++ [name], content, rfl, by simp, ?_, hg⟩
          intro s hs
          rcases List.mem_append.mp hs with h4 | h4
          · exact hdir s h4
          · have : s = name := by simpa using h4
            exact this ▸ hn
      | dir children =>
        rw [show walkEntries fs opts repoAbs repoReal maxFiles (fuel + 1)
            ((name, Node.dir children) :: rest) relDir acc =
          (if maxFiles ≤ acc.length then acc
           else if joinS '/' (relDir ++ [name]) = "" ∨
               isDeniedPath opts (joinS '/' (relDir ++ [name])) then
             walkEntries fs opts repoAbs repoReal maxFiles fuel rest relDir acc
           else
             match realpathF fs (repoAbs ++ (relDir ++ [name])) with
             | none =>
               walkEntries fs opts repoAbs repoReal maxFiles fuel rest relDir acc
             | some childReal =>
               if strictUnder repoReal childReal then
                 walkEntries fs opts repoAbs repoReal maxFiles fuel rest relDir
                   (walkEntries fs opts repoAbs repoReal maxFiles fuel
                     (entriesList children) (relDir ++ [name]) acc)
               else
                 walkEntries fs opts repoAbs repoReal maxFiles fuel rest relDir acc)
          from rfl] at hr
        by_cases h1 : maxFiles ≤ acc.length
        · rw [if_pos h1] at hr
          exact hacc r hr
        rw [if_neg h1] at hr
        by_cases h2 : joinS '/' (relDir ++ [name]) = "" ∨
            isDeniedPath opts (joinS '/' (relDir ++ [name]))
        · rw [if_pos h2] at hr
          exact ih rest relDir acc hdir hrest hacc r hr
        rw [if_neg h2] at hr
        cases hrp : realpathF fs (repoAbs ++ (relDir ++ [name])) with
        | none =>
          rw [hrp] at hr
          exact ih rest relDir acc hdir hrest hacc r hr
        | some childReal =>
          rw [hrp] at hr
          have hr2 : r ∈ (if strictUnder repoReal childReal then
              walkEntries fs opts repoAbs repoReal maxFiles fuel rest relDir
                (walkEntries fs opts repoAbs repoReal maxFiles fuel
                  (entriesList children) (relDir ++ [name]) acc)
            else
              walkEntries fs opts repoAbs repoReal maxFiles fuel rest relDir
                acc) := hr
          by_cases hsu : strictUnder repoReal childReal = true
          · rw [if_pos hsu] at hr2
            obtain ⟨hn, hgd⟩ := hent name (.dir children) (List.mem_cons_self _ _)
            have hwfd : Node.wf (.dir children) = true :=
              wf_getNode _ fs _ hwf hgd
            refine ih rest relDir
              (walkEntries fs opts repoAbs repoReal maxFiles fuel
                (entriesList children) (relDir ++ [name]) acc)
              hdir hrest ?_ r hr2
            refine ih (entriesList children) (relDir ++ [name]) acc ?_ ?_ hacc
            · intro s hs
              rcases List.mem_append.mp hs with h3 | h3
              · exact hdir s h3
              · have : s = name := by simpa using h3
                exact this ▸ hn
            · intro n c hm
              have hl : lookupE n children = some c :=
                lookupE_of_mem children (wf_dir_nodup hwfd) n c hm
              refine ⟨(wf_lookupE children (wf_dir_entries hwfd) n c hl).1, ?_⟩
              have hgc : getNode fs ((repoAbs ++ (relDir ++ [name])) ++ [n]) =
                  some c := by
                rw [getNode_append, hgd]
                show getNode (Node.dir children) [n] = some c
                simp [getNode, hl]
              simpa [List.append_assoc] using hgc
          · rw [if_neg hsu] at hr2
            exact ih rest relDir acc hdir hrest hacc r hr2

theorem listFilesRecursive_sound (fs : Node) (opts : SandboxOptions)
    (maxFiles : Nat) (hwf : Node.wf fs = true)
    (hroot : realpathF fs (normAbs (splitPath opts.repoRoot)) =
      some (normAbs (splitPath opts.repoRoot))) :
    ∀ r ∈ listFilesRecursive fs opts maxFiles,
      ∃ segs c, r = joinS '/' segs ∧ segs ≠ [] ∧
        (∀ s ∈ segs, wfName s = true) ∧
        getNode fs (normAbs (splitPath opts.repoRoot) ++ segs) =
          some (.file c) := by
  intro r hr
  simp only [listFilesRecursive] at hr
  cases hrd : readDir fs (normAbs (splitPath opts.repoRoot)) with
  | none => rw [hrd] at hr; simp at hr
  | some entries =>
    rw [hrd] at hr
    rw [mem_sortStrings] at hr
    unfold readDir at hrd
    have hstat : statNode fs (normAbs (splitPath opts.repoRoot)) =
        getNode fs (normAbs (splitPath opts.repoRoot)) := by
      simp [statNode, hroot]
    rw [hstat] at hrd
    cases hg : getNode fs (normAbs (splitPath opts.repoRoot)) with
    | none => rw [hg] at hrd; cases hrd
    | some node =>
      rw [hg] at hrd
      cases node with
      | file c => cases hrd
      | link t => cases hrd
      | dir es0 =>
        injection hrd with hrd
        subst hrd
        have hwfd : Node.wf (.dir es0) = true := wf_getNode _ fs _ hwf hg
        refine walkEntries_sound fs opts _ _ maxFiles hwf _ _ [] []
          (fun s hs => absurd hs (List.not_mem_nil s)) ?_
          (fun r' hr' => absurd hr' (List.not_mem_nil r')) r hr
        intro name child hm
        have hl : lookupE name es0 = some child :=
          lookupE_of_mem es0 (wf_dir_nodup hwfd) name child hm
        refine ⟨(wf_lookupE es0 (wf_dir_entries hwfd) name child hl).1, ?_⟩
        show getNode fs (normAbs (splitPath opts.repoRoot) ++ ([] ++ [name])) =
          some child
        rw [List.nil_append, getNode_append, hg]
        show getNode (Node.dir es0) [name] = some child
        simp [getNode, hl]

/-- **C6.** Symlinks are never enumerated or scanned.  (i) Every path the
tree lister emits spells, segment by segment, a plain directory descent
from the repo root ending at a regular file — no component of it is a
symlink.  (ii) Consequently a path whose plain descent meets a symlink at
any prefix (a symlink entry itself, or anything spelled through one) is
never listed.  (iii) `search_in_files` scans only listed files, so when no
listed file's resolved content contains the query — in particular when the
only occurrence of the query lies behind a symlink pointing outside the
root — every successful search reports zero matches. -/
theorem symlinks_never_enumerated (opts : SandboxOptions) (st : AgentState)
    (maxFiles : Nat) (hwf : Node.wf st.fs = true)
    (hroot : realpathF st.fs (normAbs (splitPath opts.repoRoot)) =
      some (normAbs (splitPath opts.repoRoot))) :
    (∀ r ∈ listFilesRecursive st.fs opts maxFiles,
      ∃ segs c, r = joinS '/' segs ∧ segs ≠ [] ∧
        (∀ s ∈ segs, wfName s = true) ∧
        getNode st.fs (normAbs (splitPath opts.repoRoot) ++ segs) =
          some (.file c)) ∧
    (∀ p t, p ≠ [] → (∀ s ∈ p, wfName s = true) →
      (∃ q r', p = q ++ r' ∧
        getNode st.fs (normAbs (splitPath opts.repoRoot) ++ q) =
          some (.link t)) →
      joinS '/' p ∉ listFilesRecursive st.fs opts maxFiles) ∧
    (∀ query pre lf lm, query ≠ "" →
      (∀ rel ∈ listFilesRecursive st.fs opts 5000, ∀ sp,
        resolveInRepo opts st.fs rel = .ok sp →
        ∀ c, statNode st.fs sp.absSegs = some (.file c) →
          includesS c query = false) →
      ∀ res, searchInFiles opts st query pre lf lm = .ok res →
        res.matches_ = []) := by
  refine ⟨listFilesRecursive_sound st.fs opts maxFiles hwf hroot, ?_, ?_⟩
  · rintro p t hp hwfp ⟨q, r', hqr, hlink⟩ hmem
    obtain ⟨segs, c, hjoin, hne, hsegs, hfile⟩ :=
      listFilesRecursive_sound st.fs opts maxFiles hwf hroot _ hmem
    have hseg : segs = p := joinS_inj segs p
      (fun s hs => wfName_no_slash s (hsegs s hs))
      (fun s hs => wfName_no_slash s (hwfp s hs)) hne hp hjoin.symm
    subst hseg
    subst hqr
    cases r' with
    | nil =>
      rw [List.append_nil] at hfile
      rw [hfile] at hlink
      injection hlink with hlink
      cases hlink
    | cons x xs =>
      rw [← List.append_assoc, getNode_append, hlink] at hfile
      simp [getNode] at hfile
  · intro query pre lf lm hq hnone res hres
    simp only [searchInFiles, if_neg hq] at hres
    have hsg : searchFilesGo opts st.fs query (clamp (lm.getD 200) 1 2000)
        (((listFilesRecursive st.fs opts 5000).filter
          (fun p => trimS (pre.getD "") = "" ∨
            startsWithS p (trimS (pre.getD "")))).take
          (clamp (lf.getD 800) 1 2000)) [] = [] := by
      apply searchFilesGo_nil
      intro rel hrel
      exact hnone rel (List.mem_of_mem_filter (List.mem_of_mem_take hrel))
    rw [hsg] at hres
    injection hres with hres
    rw [← hres]

/-- A repo holding a plain file plus a symlink whose target — outside the
root — is the only place the query string occurs. -/
def c6Fs : Node :=
  .dir (.cons "repo"
    (.dir (.cons "a.txt" (.file "hello world\n")
      (.cons "link.txt" (.link "/outside/secret.txt") .nil)))
    (.cons "outside"
      (.dir (.cons "secret.txt" (.file "secret-token\n") .nil)) .nil))

def c6St : AgentState := ⟨c6Fs, none, []⟩

theorem symlinks_never_enumerated_witness :
    joinS '/' ["link.txt"] ∉ listFilesRecursive c6St.fs wOpts 5000 ∧
    searchInFiles wOpts c6St "secret-token" none none none =
      .ok ⟨"secret-token", [], 1⟩ ∧
    (∀ res, searchInFiles wOpts c6St "secret-token" none none none = .ok res →
      res.matches_ = []) := by
  have H := symlinks_never_enumerated wOpts c6St 5000 (by decide) (by decide)
  refine ⟨?_, by rfl, ?_⟩
  · exact H.2.1 ["link.txt"] "/outside/secret.txt" (by decide) (by decide)
      ⟨["link.txt"], [], rfl, by decide⟩
  · refine H.2.2 "secret-token" none none none (by decide) ?_
    intro rel hrel sp hsp c hc
    rw [show listFilesRecursive c6St.fs wOpts 5000 = ["a.txt"] from rfl] at hrel
    have hr : rel = "a.txt" := by simpa using hrel
    subst hr
    have hsp2 : (Except.ok (⟨["repo", "a.txt"], "a.txt"⟩ : SafePath) :
        Except SecError SafePath) = .ok sp := .trans (by rfl) hsp
    injection hsp2 with hsp2
    subst hsp2
    have hc2 : (some (Node.file "hello world\n") : Option Node) =
        some (.file c) := .trans (by rfl) hc
    injection hc2 with hc2
    injection hc2 with hc2
    rw [← hc2]
    decide

end CodingAgent
